import Mathlib

/-!
Shallow embedding of the dedupler repository core (src/db.py, src/scanner.py,
src/fs_utlis.py) and proofs about its specification claims.

The SQLite tables `files`, `dirs`, `duplicates` (created in
`Database.initialize`, src/db.py) are modelled as Lean lists of row
structures, kept in rowid (insertion) order.  SQL `NULL` is `Option.none`;
SQL rowids are `Nat` (SQLite assigns them starting from 1).  The
`lastrowid` of an insert into `duplicates` is modelled by the `nextDupId`
counter.  Python truthiness tests on nullable columns (`if old_dup_id:`,
`if not hash_complete:`, `bool(res_has_hash_complete)`) are modelled
faithfully: `None`, `0` and the empty string are falsy.
-/

namespace Dedupler

/-- A row of the `files` table: id, path, size, dir_id, hash, hash_complete,
duplicate_id (src/db.py, CREATE TABLE files). -/
structure FileRow where
  id : Nat
  path : String
  size : Nat
  dir_id : Nat
  hash : Option String
  hash_complete : Option String
  duplicate_id : Option Nat
deriving Repr, DecidableEq

/-- A row of the `dirs` table: id, path, parent_id, hash, duplicate_id
(src/db.py, CREATE TABLE dirs). -/
structure DirRow where
  id : Nat
  path : String
  parent_id : Option Nat
  hash : Option String
  duplicate_id : Option Nat
deriving Repr, DecidableEq

/-- A row of the `duplicates` table: id, type (src/db.py, CREATE TABLE
duplicates).  `type` is the string "file" or "dir". -/
structure DupRow where
  id : Nat
  type : String
deriving Repr, DecidableEq

/-- The database state: the three tables in rowid order, plus the rowid the
next insert into `duplicates` would receive (SQLite's `lastrowid`). -/
structure Tables where
  files : List FileRow
  dirs : List DirRow
  duplicates : List DupRow
  nextDupId : Nat
deriving Repr, DecidableEq

/-- Python truthiness of a nullable integer column value: `None` and `0`
are falsy. -/
def pyTruthyNat : Option Nat → Bool
  | none => false
  | some n => n != 0

/-- Python truthiness of a nullable string column value: `None` and `""`
are falsy (`bool(res_has_hash_complete)`, `if not hash_complete:`). -/
def pyTruthyStr : Option String → Bool
  | none => false
  | some s => s != ""

/-- SQL three-valued equality `col = param` used in WHERE clauses: a
comparison involving NULL is never satisfied. -/
def sqlEqStr : Option String → Option String → Bool
  | some a, some b => a == b
  | _, _ => false

/-- SQL `COALESCE(?, col)` as used by `_sqlUpdateDir` / `_sqlUpdateFile`:
a `None` parameter leaves the column unchanged. -/
def coalesce (new old : Option α) : Option α :=
  match new with
  | some v => some v
  | none => old

/-- `Database._sqlUpdateDir(id, hash, dup_id)` (src/db.py): UPDATE dirs SET
hash = COALESCE(?, hash), duplicate_id = COALESCE(?, duplicate_id)
WHERE id = ?. -/
def sqlUpdateDir (t : Tables) (id : Nat) (hash : Option String) (dup_id : Option Nat) : Tables :=
  { t with dirs := t.dirs.map fun d =>
      if d.id = id then
        { d with hash := coalesce hash d.hash,
                 duplicate_id := coalesce dup_id d.duplicate_id }
      else d }

/-- `Database._sqlDirRemoveDupID(ids)` (src/db.py): UPDATE dirs SET
duplicate_id = NULL WHERE id = ? for every id in the list. -/
def sqlDirRemoveDupID (t : Tables) (ids : List Nat) : Tables :=
  { t with dirs := t.dirs.map fun d =>
      if d.id ∈ ids then { d with duplicate_id := none } else d }

/-- `Database._sqlUpdateFile(id, hash, hash_complete, dup_id)` (src/db.py):
UPDATE files SET hash = COALESCE(?, hash), hash_complete = COALESCE(?,
hash_complete), duplicate_id = COALESCE(?, duplicate_id) WHERE id = ?. -/
def sqlUpdateFile (t : Tables) (id : Nat) (hash : Option String)
    (hash_complete : Option String) (dup_id : Option Nat) : Tables :=
  { t with files := t.files.map fun f =>
      if f.id = id then
        { f with hash := coalesce hash f.hash,
                 hash_complete := coalesce hash_complete f.hash_complete,
                 duplicate_id := coalesce dup_id f.duplicate_id }
      else f }

/-- `Database._seqGetDulpFile(size, hash, hash_complete)` (src/db.py):
SELECT ... FROM files WHERE size = ? AND (hash = ? OR hash_complete = ?)
LIMIT 1, in rowid order.  Passing `None` for a hash parameter makes that
disjunct unsatisfiable (SQL NULL comparison). -/
def seqGetDulpFile (t : Tables) (size : Nat) (hash : Option String)
    (hash_complete : Option String) : Option FileRow :=
  t.files.find? fun f =>
    f.size == size && (sqlEqStr f.hash hash || sqlEqStr f.hash_complete hash_complete)

/-- `Database._sqlInsertDuplicate(type)` (src/db.py): INSERT INTO duplicates
(type) VALUES (?), returning `lastrowid`. -/
def sqlInsertDuplicate (t : Tables) (type : String) : Tables × Nat :=
  ({ t with duplicates := t.duplicates ++ [⟨t.nextDupId, type⟩],
            nextDupId := t.nextDupId + 1 }, t.nextDupId)

/-- `Database._sqlRemoveDuplicate(id)` (src/db.py): DELETE FROM duplicates
WHERE id = ?. -/
def sqlRemoveDuplicate (t : Tables) (id : Nat) : Tables :=
  { t with duplicates := t.duplicates.filter fun d => d.id != id }

/-- `Database._sqlGetDirsFromDupID(dup_id)` (src/db.py): SELECT id FROM dirs
WHERE duplicate_id = ?. -/
def sqlGetDirsFromDupID (t : Tables) (dup_id : Nat) : List Nat :=
  (t.dirs.filter fun d => d.duplicate_id == some dup_id).map (·.id)

/-- `Database._sqlFindDupDirFromHash(hash)` (src/db.py): SELECT id,
duplicate_id FROM dirs WHERE hash = ? (first row). -/
def sqlFindDupDirFromHash (t : Tables) (hash : String) : Option (Nat × Option Nat) :=
  (t.dirs.find? fun d => d.hash == some hash).map fun d => (d.id, d.duplicate_id)

/-- `Database.updateDirHash(id, hash)` (src/db.py).  Reads the dir's old
hash and duplicate_id; returns unchanged if the hash did not change;
otherwise runs the duplicate-group maintenance and the final update inside
a transaction.  The embedding is failure-free, so the surrounding
`_sqlTransaction` always commits and is the identity on the table state.
A missing dir id (which would crash the Python source on tuple unpacking)
is modelled as a no-op. -/
def updateDirHash (t : Tables) (id : Nat) (hash : String) : Tables :=
  match t.dirs.find? fun d => d.id == id with
  | none => t
  | some d =>
    let old_hash := d.hash
    let old_dup_id := d.duplicate_id
    if old_hash == some hash then t
    else
      -- transaction body
      let t1 :=
        if pyTruthyNat old_dup_id then
          let odid := old_dup_id.getD 0
          let res := sqlGetDirsFromDupID t odid
          if res.length == 2 then
            sqlRemoveDuplicate (sqlDirRemoveDupID t res) odid
          else
            sqlDirRemoveDupID t [id]
        else t
      let found := sqlFindDupDirFromHash t1 hash
      let dir_id : Option Nat := found.map (·.1)
      let dup_id : Option Nat := (found.map (·.2)).getD none
      let step :=
        if pyTruthyNat dir_id && !pyTruthyNat dup_id then
          let ins := sqlInsertDuplicate t1 "dir"
          (sqlUpdateDir ins.1 (dir_id.getD 0) none (some ins.2), some ins.2)
        else (t1, dup_id)
      sqlUpdateDir step.1 id (some hash) step.2

/-- The payload of the `PartialHashCollision` exception (src/db.py):
`(current_path, id, path, dir_id, has_hash_complete)`. -/
structure PHC where
  current_path : String
  id : Nat
  path : String
  dir_id : Nat
  has_hash_complete : Bool
deriving Repr, DecidableEq

/-- `Database.updateFileHash(id, hash, hash_complete)` (src/db.py).
`Except.error` models the `raise PartialHashCollision(...)`, which happens
before any write, so the error case leaves the tables unchanged.  A missing
file id (a crash in the Python source) is modelled as a no-op. -/
def updateFileHash (t : Tables) (id : Nat) (hash : String)
    (hash_complete : Option String) : Except PHC Tables :=
  match t.files.find? fun f => f.id == id with
  | none => .ok t
  | some f =>
    let path := f.path
    let size := f.size
    -- If file size < 1024, hash_complete will be set to the same value as hash
    let hash_complete := if size < 1024 then some hash else hash_complete
    if !pyTruthyStr hash_complete then
      -- For file bigger than 1024, first scan (partial hash)
      match seqGetDulpFile t size (some hash) none with
      | some r => .error ⟨path, r.id, r.path, r.dir_id, pyTruthyStr r.hash_complete⟩
      | none => .ok (sqlUpdateFile t id (some hash) none none)
    else
      -- second scan (full hash), or first scan of a small file
      let res := seqGetDulpFile t size none hash_complete
      let file_id : Option Nat := res.map (·.id)
      let dup_id : Option Nat := (res.map (·.duplicate_id)).getD none
      -- transaction body
      let step :=
        if pyTruthyNat file_id && !pyTruthyNat dup_id then
          let ins := sqlInsertDuplicate t "file"
          (sqlUpdateFile ins.1 (file_id.getD 0) none none (some ins.2), some ins.2)
        else (t, dup_id)
      .ok (sqlUpdateFile step.1 id (some hash) hash_complete step.2)

/-- `Database.updateFileCompleteHash(id, hash_complete)` (src/db.py):
UPDATE files SET hash_complete = ? WHERE id = ?. -/
def updateFileCompleteHash (t : Tables) (id : Nat) (hash_complete : String) : Tables :=
  { t with files := t.files.map fun f =>
      if f.id = id then { f with hash_complete := some hash_complete } else f }

/-- `Database.getDirHash(id)` (src/db.py): SELECT hash FROM dirs WHERE
id = ? (the source crashes when the row is missing; here `none`). -/
def getDirHash (t : Tables) (id : Nat) : Option String :=
  (t.dirs.find? fun d => d.id == id).bind (·.hash)

/-- `Database.getDirParentID(id)` (src/db.py): SELECT parent_id FROM dirs
WHERE id = ?. -/
def getDirParentID (t : Tables) (id : Nat) : Option Nat :=
  (t.dirs.find? fun d => d.id == id).bind (·.parent_id)

/-- A row of the UNION in `Database.getChildrenHashes`:
(id, hash, hash_complete). -/
abbrev ChildRow := Nat × Option String × Option String

/-- Stable insertion of a row into a list sorted by ascending id
(models ORDER BY id). -/
def insertByID (x : ChildRow) : List ChildRow → List ChildRow
  | [] => [x]
  | y :: ys => if x.1 < y.1 then x :: y :: ys else y :: insertByID x ys

/-- Stable sort by ascending id (models ORDER BY id). -/
def sortByID (l : List ChildRow) : List ChildRow :=
  l.foldr insertByID []

/-- The UNION ALL part of the query in `Database.getChildrenHashes(id)`:
child files contribute (id, hash, hash_complete), child dirs contribute
(id, hash, NULL). -/
def childrenRows (t : Tables) (id : Nat) : List ChildRow :=
  ((t.files.filter fun f => f.dir_id == id).map fun f => (f.id, f.hash, f.hash_complete))
    ++ ((t.dirs.filter fun d => d.parent_id == some id).map fun d => (d.id, d.hash, none))

/-- The Python selection `hash_complete or hash or ''` (src/db.py,
`getChildrenHashes`): Python `or` skips falsy values, i.e. both `None` and
the empty string. -/
def pySelectDigest (hash hash_complete : Option String) : String :=
  if pyTruthyStr hash_complete then hash_complete.getD ""
  else if pyTruthyStr hash then hash.getD ""
  else ""

/-- `Database.getChildrenHashes(id)` (src/db.py): the UNION ALL rows
ordered by id, each mapped through `hash_complete or hash or ''`. -/
def getChildrenHashes (t : Tables) (id : Nat) : List String :=
  (sortByID (childrenRows t id)).map fun r => pySelectDigest r.2.1 r.2.2

/-- `Scanner.dir_hasher(id)` (src/scanner.py): the md5 hex digest of the
newline-join of `getChildrenHashes(id)`.  The digest function
(`hashlib.md5(... .encode("ascii")).hexdigest()`) is external and is
passed as a function parameter. -/
def dirHasher (md5 : String → String) (t : Tables) (id : Nat) : String :=
  md5 (String.intercalate "\n" (getChildrenHashes t id))

/-- `Scanner.dir_hash_update(id)` (src/scanner.py): recompute and store the
dir's hash, then recurse into the parent if the dir has one AND the
parent's hash is not NULL.  The Python recursion is unbounded; parent
chains in a real catalog are finite, which the `fuel` argument models
(every claim is instantiated with enough fuel for the chain at hand). -/
def dirHashUpdate (md5 : String → String) : Nat → Tables → Nat → Tables
  | 0, t, _ => t
  | fuel + 1, t, id =>
    let t1 := updateDirHash t id (dirHasher md5 t id)
    match getDirParentID t1 id with
    | none => t1
    | some parent =>
      match getDirHash t1 parent with
      | none => t1
      | some _ => dirHashUpdate md5 fuel t1 parent

/-! ## Transaction combinator (src/db.py `_sqlTransaction`) -/

/-- Database state together with the transaction snapshot: `BEGIN` (with
`isolation_level=None`, i.e. explicit transaction control) opens a
transaction whose`ROLLBACK` restores the state at `BEGIN`; `COMMIT` makes
the changes durable.  `snapshot = none` means autocommit mode (no open
transaction). -/
structure TxState where
  tables : Tables
  snapshot : Option Tables
deriving Repr, DecidableEq

/-- Error raised by the underlying store (`sqlite3.Error`), carried as an
opaque message. -/
abbrev SqlErr := String

/-- `Database._sqlStartTransaction` (src/db.py): execute `BEGIN;`. -/
def sqlStartTransaction (s : TxState) : TxState :=
  { s with snapshot := some s.tables }

/-- `Database._sqlCommitTransaction` (src/db.py): execute `COMMIT;`. -/
def sqlCommitTransaction (s : TxState) : TxState :=
  { s with snapshot := none }

/-- `Database._sqlRollbackTransaction` (src/db.py): execute `ROLLBACK;`;
when no transaction is open the resulting `sqlite3.OperationalError` is
caught and logged, so the call is a no-op. -/
def sqlRollbackTransaction (s : TxState) : TxState :=
  match s.snapshot with
  | some t => { tables := t, snapshot := none }
  | none => s

/-- `Database._sqlTransaction` (src/db.py): the context manager opens
`BEGIN`, runs the body, commits on normal exit, and on an
`sqlite3.Error` rolls back and re-raises the same exception.  In the
embedding the store-error channel (`Option SqlErr`) is exactly the
`sqlite3.Error` channel of the source: the bodies the program runs inside
transactions perform only store operations. -/
def sqlTransaction (body : TxState → Option SqlErr × TxState) (s : TxState) :
    Option SqlErr × TxState :=
  let s1 := sqlStartTransaction s
  match body s1 with
  | (none, s2) => (none, sqlCommitTransaction s2)
  | (some e, s2) => (some e, sqlRollbackTransaction s2)

/-! ## Laws from the specification -/

/-- No duplicates in a list of row ids (SQL PRIMARY KEY uniqueness). -/
def nodupB : List Nat → Bool
  | [] => true
  | x :: xs => !(xs.contains x) && nodupB xs

/-- A nullable duplicate_id reference is either NULL or a positive rowid
below the next fresh duplicates rowid. -/
def dupRefOk (next : Nat) : Option Nat → Bool
  | none => true
  | some g => decide (1 ≤ g) && decide (g < next)

/-- Well-formedness facts every state reachable through the store holds:
rowids are unique and positive within each table, and no row references a
duplicates rowid that has not been handed out yet. -/
def WFb (t : Tables) : Bool :=
  nodupB (t.files.map (·.id)) && nodupB (t.dirs.map (·.id)) &&
  nodupB (t.duplicates.map (·.id)) &&
  t.files.all (fun f => decide (1 ≤ f.id) && dupRefOk t.nextDupId f.duplicate_id) &&
  t.dirs.all (fun d => decide (1 ≤ d.id) && dupRefOk t.nextDupId d.duplicate_id) &&
  t.duplicates.all (fun D => decide (1 ≤ D.id) && decide (D.id < t.nextDupId)) &&
  decide (1 ≤ t.nextDupId)

/-- Reference-counting law (spec §3, §8.1): every duplicates row of type
"file" is referenced by at least 2 files, every row of type "dir" by at
least 2 dirs. -/
def refCountLawB (t : Tables) : Bool :=
  t.duplicates.all fun D =>
    (!(D.type == "file") ||
      decide (2 ≤ (t.files.filter fun f => f.duplicate_id == some D.id).length)) &&
    (!(D.type == "dir") ||
      decide (2 ≤ (t.dirs.filter fun d => d.duplicate_id == some D.id).length))

/-- Small-file law (spec §3, §8.2): a file of size < 1024 with a non-null
partial hash has its complete hash equal to the partial hash. -/
def smallFileLawB (t : Tables) : Bool :=
  t.files.all fun f =>
    !(decide (f.size < 1024)) || f.hash == none || f.hash_complete == f.hash

/-- Pair law (spec §8.7): two distinct files sharing size and a non-null
complete hash share a non-null duplicate_id. -/
def pairLawB (t : Tables) : Bool :=
  t.files.all fun a => t.files.all fun b =>
    (a.id == b.id) || !(a.size == b.size && sqlEqStr a.hash_complete b.hash_complete) ||
    (a.duplicate_id == b.duplicate_id && a.duplicate_id != none)

/-! ## Filesystem model and traversal (src/fs_utlis.py `dir_dfs`) -/

/-- A directory entry as `dir_dfs` observes it through `pathlib`:
`is_symlink()` is an lstat property, while `is_file()` / `is_dir()` /
`iterdir()` follow symlinks, so a link is classified by what its target
resolves to (`brokenLink`: the target does not exist). -/
inductive FSEntry where
  | regFile (name : String)
  | subdir (name : String) (children : List FSEntry)
  | linkToFile (name : String)
  | linkToDir (name : String) (children : List FSEntry)
  | brokenLink (name : String)

/-- The entry's own name. -/
def FSEntry.name : FSEntry → String
  | .regFile n => n
  | .subdir n _ => n
  | .linkToFile n => n
  | .linkToDir n _ => n
  | .brokenLink n => n

/-- `p.is_symlink()`. -/
def FSEntry.isSymlink : FSEntry → Bool
  | .linkToFile _ => true
  | .linkToDir _ _ => true
  | .brokenLink _ => true
  | _ => false

/-- `p.is_file()` (follows symlinks). -/
def FSEntry.isFile : FSEntry → Bool
  | .regFile _ => true
  | .linkToFile _ => true
  | _ => false

/-- `p.is_dir()` (follows symlinks). -/
def FSEntry.isDir : FSEntry → Bool
  | .subdir _ _ => true
  | .linkToDir _ _ => true
  | _ => false

/-- `Path(p).iterdir()` of an entry that resolves to a directory (for a
symlinked directory, the target's children). -/
def FSEntry.children : FSEntry → List FSEntry
  | .subdir _ cs => cs
  | .linkToDir _ cs => cs
  | _ => []

/-- A traversal event `(kind, path)`: the kind string is "symlink",
"file" or "dir"; the path is `None` for a directory leave marker.  Paths
are lists of name components. -/
abbrev FSEvent := String × Option (List String)

/-- `dir_dfs(path)` (src/fs_utlis.py) over the modelled listing: for each
entry, an independent `is_symlink` check, then `is_file`, then `is_dir`
(entering the directory, recursing, and emitting the `("dir", None)`
leave marker). -/
def dirDfs : List String → List FSEntry → List FSEvent
  | _, [] => []
  | base, p :: rest =>
    let path := base ++ [p.name]
    ((if p.isSymlink then [("symlink", some path)] else []) ++
      (if p.isFile then [("file", some path)] else []) ++
      -- the `if p.is_dir()` branch; the match arms are exactly the entries
      -- with `isDir = true`, and expose the resolved children structurally
      (match p with
       | .subdir _ cs => ("dir", some path) :: (dirDfs path cs ++ [("dir", none)])
       | .linkToDir _ cs => ("dir", some path) :: (dirDfs path cs ++ [("dir", none)])
       | _ => [])) ++
    dirDfs base rest

/-- An entry `e` occurs in a listing at path `loc`, reachable from the
listing `entries` rooted at path `base` by walking into (possibly
symlinked) subdirectories. -/
inductive OccursIn : List String → List FSEntry → List String → FSEntry → Prop where
  | here {base entries e} : e ∈ entries → OccursIn base entries base e
  | deeper {base entries loc e d} : d ∈ entries → d.isDir = true →
      OccursIn (base ++ [d.name]) d.children loc e → OccursIn base entries loc e

/-! ## Observation helpers -/

/-- The file row with the given id, if any (rowid order lookup). -/
def getFileRow (t : Tables) (id : Nat) : Option FileRow :=
  t.files.find? fun f => f.id == id

/-- The dir row with the given id, if any (rowid order lookup). -/
def getDirRow (t : Tables) (id : Nat) : Option DirRow :=
  t.dirs.find? fun d => d.id == id

/-! ## General list lemmas -/

theorem find?_key_map {α : Type} (l : List α) (g : α → α) (key : α → Nat)
    (hg : ∀ x, key (g x) = key x) (k : Nat) :
    (l.map g).find? (fun x => key x == k) = (l.find? fun x => key x == k).map g := by
  rw [List.find?_map]
  have h : ((fun x => key x == k) ∘ g) = fun x => key x == k := by
    funext x
    simp [Function.comp, hg]
  rw [h]

theorem nodupB_cons {x : Nat} {xs : List Nat} :
    nodupB (x :: xs) = true ↔ xs.contains x = false ∧ nodupB xs = true := by
  simp [nodupB]

theorem find?_key_of_mem_nodup {α : Type} {l : List α} (key : α → Nat)
    (hnd : nodupB (l.map key) = true) {x : α} (hx : x ∈ l) :
    l.find? (fun y => key y == key x) = some x := by
  induction l with
  | nil => cases hx
  | cons a as ih =>
    rw [List.map_cons] at hnd
    obtain ⟨hna, hnd'⟩ := nodupB_cons.mp hnd
    rcases List.mem_cons.mp hx with rfl | hx'
    · exact List.find?_cons_of_pos _ (by simp)
    · have hne : (key a == key x) = false := by
        rcases h : key a == key x with _ | _
        · rfl
        · exfalso
          have hmem : key x ∈ as.map key := List.mem_map_of_mem key hx'
          rw [← beq_iff_eq.mp h] at hmem
          simp [List.contains] at hna
          exact absurd (by simpa using hmem) (by simpa using hna)
      rw [List.find?_cons_of_neg _ (by simp [hne]), ih hnd' hx']

/-! ## Traversal lemmas -/

theorem dirDfs_nil (base : List String) : dirDfs base [] = [] := by
  rw [dirDfs]

theorem dirDfs_regFile (base : List String) (n : String) (rest : List FSEntry) :
    dirDfs base (.regFile n :: rest) =
      ("file", some (base ++ [n])) :: dirDfs base rest := by
  simp [dirDfs, FSEntry.isSymlink, FSEntry.isFile, FSEntry.name]

theorem dirDfs_subdir (base : List String) (n : String) (cs rest : List FSEntry) :
    dirDfs base (.subdir n cs :: rest) =
      (("dir", some (base ++ [n])) :: (dirDfs (base ++ [n]) cs ++ [("dir", none)])) ++
        dirDfs base rest := by
  simp [dirDfs, FSEntry.isSymlink, FSEntry.isFile, FSEntry.name]

theorem dirDfs_linkToFile (base : List String) (n : String) (rest : List FSEntry) :
    dirDfs base (.linkToFile n :: rest) =
      ("symlink", some (base ++ [n])) :: ("file", some (base ++ [n])) :: dirDfs base rest := by
  simp [dirDfs, FSEntry.isSymlink, FSEntry.isFile, FSEntry.name]

theorem dirDfs_linkToDir (base : List String) (n : String) (cs rest : List FSEntry) :
    dirDfs base (.linkToDir n cs :: rest) =
      (("symlink", some (base ++ [n])) ::
        ("dir", some (base ++ [n])) :: (dirDfs (base ++ [n]) cs ++ [("dir", none)])) ++
        dirDfs base rest := by
  simp [dirDfs, FSEntry.isSymlink, FSEntry.isFile, FSEntry.name]

theorem dirDfs_brokenLink (base : List String) (n : String) (rest : List FSEntry) :
    dirDfs base (.brokenLink n :: rest) =
      ("symlink", some (base ++ [n])) :: dirDfs base rest := by
  simp [dirDfs, FSEntry.isSymlink, FSEntry.isFile, FSEntry.name]

theorem dirDfs_cons_append (base : List String) (p : FSEntry) (rest : List FSEntry) :
    dirDfs base (p :: rest) = dirDfs base [p] ++ dirDfs base rest := by
  cases p <;>
    simp [dirDfs_regFile, dirDfs_subdir, dirDfs_linkToFile, dirDfs_linkToDir,
      dirDfs_brokenLink, dirDfs_nil]

theorem mem_dirDfs_of_mem {base : List String} {p : FSEntry} {entries : List FSEntry}
    (hp : p ∈ entries) {ev : FSEvent} (hev : ev ∈ dirDfs base [p]) :
    ev ∈ dirDfs base entries := by
  induction entries with
  | nil => cases hp
  | cons q rest ih =>
    rw [dirDfs_cons_append]
    rcases List.mem_cons.mp hp with rfl | hp'
    · exact List.mem_append_left _ hev
    · exact List.mem_append_right _ (ih hp')

theorem mem_dirDfs_entry_of_children {base : List String} {d : FSEntry}
    (hd : d.isDir = true) {ev : FSEvent}
    (hev : ev ∈ dirDfs (base ++ [d.name]) d.children) :
    ev ∈ dirDfs base [d] := by
  cases d with
  | subdir n cs =>
    rw [dirDfs_subdir, dirDfs_nil, List.append_nil]
    simp only [FSEntry.name, FSEntry.children] at hev
    exact List.mem_cons_of_mem _ (List.mem_append_left _ hev)
  | linkToDir n cs =>
    rw [dirDfs_linkToDir, dirDfs_nil, List.append_nil]
    simp only [FSEntry.name, FSEntry.children] at hev
    exact List.mem_cons_of_mem _ (List.mem_cons_of_mem _ (List.mem_append_left _ hev))
  | regFile n => simp [FSEntry.isDir] at hd
  | linkToFile n => simp [FSEntry.isDir] at hd
  | brokenLink n => simp [FSEntry.isDir] at hd

/-! ## Claim C10 -/

/-- Claim C10: for every directory entry that is a symbolic link whose
target is a regular file (respectively a directory), `dir_dfs` yields both
a `("symlink", p)` event and a `("file", p)` (respectively `("dir", p)`)
event for the same path, and for a symlinked directory it recurses into
the target's children (every event of the target listing's traversal is
among the yielded events); so a symlink whose target exists is never
reported by the symlink event alone. -/
theorem claim10_dirDfs_symlink_events {base loc : List String}
    {entries : List FSEntry} {e : FSEntry} (h : OccursIn base entries loc e) :
    (∀ n, e = .linkToFile n →
      ("symlink", some (loc ++ [n])) ∈ dirDfs base entries ∧
      ("file", some (loc ++ [n])) ∈ dirDfs base entries) ∧
    (∀ n cs, e = .linkToDir n cs →
      ("symlink", some (loc ++ [n])) ∈ dirDfs base entries ∧
      ("dir", some (loc ++ [n])) ∈ dirDfs base entries ∧
      ∀ ev ∈ dirDfs (loc ++ [n]) cs, ev ∈ dirDfs base entries) := by
  induction h with
  | here hmem =>
    constructor
    · rintro n rfl
      refine ⟨mem_dirDfs_of_mem hmem ?_, mem_dirDfs_of_mem hmem ?_⟩ <;>
        simp [dirDfs_linkToFile, dirDfs_nil]
    · rintro n cs rfl
      refine ⟨mem_dirDfs_of_mem hmem ?_, mem_dirDfs_of_mem hmem ?_, ?_⟩
      · simp [dirDfs_linkToDir, dirDfs_nil, FSEntry.name]
      · simp [dirDfs_linkToDir, dirDfs_nil, FSEntry.name]
      · intro ev hev
        refine mem_dirDfs_of_mem hmem ?_
        exact mem_dirDfs_entry_of_children (d := .linkToDir n cs) rfl hev
  | deeper hmem hdir _ ih =>
    obtain ⟨ih1, ih2⟩ := ih
    constructor
    · intro n he
      obtain ⟨h1, h2⟩ := ih1 n he
      exact ⟨mem_dirDfs_of_mem hmem (mem_dirDfs_entry_of_children hdir h1),
        mem_dirDfs_of_mem hmem (mem_dirDfs_entry_of_children hdir h2)⟩
    · intro n cs he
      obtain ⟨h1, h2, h3⟩ := ih2 n cs he
      refine ⟨mem_dirDfs_of_mem hmem (mem_dirDfs_entry_of_children hdir h1),
        mem_dirDfs_of_mem hmem (mem_dirDfs_entry_of_children hdir h2), ?_⟩
      intro ev hev
      exact mem_dirDfs_of_mem hmem (mem_dirDfs_entry_of_children hdir (h3 ev hev))

/-- A concrete listing for the C10 witness: a directory containing a
symlink to a regular file and a symlinked directory with one file. -/
def witnessListing : List FSEntry :=
  [.linkToFile "lnk", .linkToDir "dlnk" [.regFile "inner"]]

/-- Witness for C10 at the concrete listing. -/
theorem claim10_dirDfs_symlink_events_witness :
    ("symlink", some ["root", "lnk"]) ∈ dirDfs ["root"] witnessListing ∧
    ("file", some ["root", "lnk"]) ∈ dirDfs ["root"] witnessListing :=
  (claim10_dirDfs_symlink_events
    (OccursIn.here (by simp [witnessListing]))).1 "lnk" rfl

/-! ## Claim C9 -/

/-- Claim C9: a store operation that opens a transaction (the
duplicate-attach step of `updateFileHash`, the group-lifecycle step of
`updateDirHash`) begins with BEGIN; on normal exit of the body it commits
(the body's table state persists, no transaction stays open); on an error
raised inside the transaction — in those operations only store errors can
arise, the channel modelled by `Option SqlErr` — it rolls the transaction
back (the pre-BEGIN table state is restored) and re-raises the same error
unchanged.  The hypothesis states that the body is a sequence of store
operations, which act on the tables and never touch the transaction
snapshot themselves. -/
theorem claim9_transaction_scope (body : TxState → Option SqlErr × TxState)
    (s : TxState) (hsnap : ∀ st, (body st).2.snapshot = st.snapshot) :
    ((body (sqlStartTransaction s)).1 = none →
      sqlTransaction body s =
        (none, ⟨(body (sqlStartTransaction s)).2.tables, none⟩)) ∧
    (∀ e, (body (sqlStartTransaction s)).1 = some e →
      sqlTransaction body s = (some e, ⟨s.tables, none⟩)) := by
  have hsn := hsnap (sqlStartTransaction s)
  rcases hb : body (sqlStartTransaction s) with ⟨err, s2⟩
  rw [hb] at hsn
  constructor
  · intro h
    have h' : err = none := h
    subst h'
    simp [sqlTransaction, hb, sqlCommitTransaction]
  · intro e h
    have h' : err = some e := h
    subst h'
    have hs2 : s2.snapshot = some s.tables := by
      simpa [sqlStartTransaction] using hsn
    simp [sqlTransaction, hb, sqlRollbackTransaction, hs2]

/-- A concrete failing transaction body for the C9 witness: it mutates the
tables and then fails with a store error. -/
def txBody0 : TxState → Option SqlErr × TxState :=
  fun st =>
    (some "UNIQUE constraint failed",
      { st with tables := { st.tables with nextDupId := 99 } })

/-- A concrete pre-transaction state for the C9 witness. -/
def txS0 : TxState := ⟨⟨[], [], [], 1⟩, none⟩

/-- Witness for C9: the failing body's mutation is rolled back and its
error is re-raised. -/
theorem claim9_transaction_scope_witness :
    sqlTransaction txBody0 txS0 = (some "UNIQUE constraint failed", ⟨txS0.tables, none⟩) :=
  (claim9_transaction_scope txBody0 txS0 (fun _ => rfl)).2
    "UNIQUE constraint failed" rfl

/-! ## Counterexample states -/

instance {ε α : Type} [DecidableEq ε] [DecidableEq α] : DecidableEq (Except ε α) := fun a b =>
  match a, b with
  | .ok x, .ok y =>
    if h : x = y then .isTrue (by rw [h]) else .isFalse (by simp [h])
  | .error e, .error f =>
    if h : e = f then .isTrue (by rw [h]) else .isFalse (by simp [h])
  | .ok _, .error _ => .isFalse (by simp)
  | .error _, .ok _ => .isFalse (by simp)

/-- One already-hashed small file, no duplicates: every duplicates row
(vacuously) has ≥ 2 members. -/
def c1pre : Tables :=
  { files := [⟨1, "/a", 50, 1, some "H", some "H", none⟩],
    dirs := [⟨1, "/", none, none, none⟩],
    duplicates := [], nextDupId := 1 }

/-- The state after re-hashing the already-hashed file of `c1pre`: the
probe matches the file's own row, so a fresh duplicates row is created
with that single file as its only member. -/
def c1post : Tables :=
  { files := [⟨1, "/a", 50, 1, some "H", some "H", some 1⟩],
    dirs := [⟨1, "/", none, none, none⟩],
    duplicates := [⟨1, "file"⟩], nextDupId := 2 }

/-- Counterexample to claim C1 as stated: from a state in which every
duplicates row has at least 2 members, a single `updateFileHash` call
(re-hashing a file whose stored partial hash already equals the probe
value) produces a duplicates row of type "file" referenced by exactly one
file. -/
theorem claim1_counterexample :
    refCountLawB c1pre = true ∧
    updateFileHash c1pre 1 "H" none = .ok c1post ∧
    refCountLawB c1post = false := by
  decide

/-- A placeholder digest function for concrete traversal of the directory
hash cascade (the real program uses md5; the claims under test do not
depend on which digest function is used). -/
def md5Mock (s : String) : String := "md5<" ++ s ++ ">"

/-- A chain root(1) ← a(2) ← b(3) with two already-hashed files inside b
and no directory hashed yet. -/
def c2pre : Tables :=
  { files := [⟨1, "/r/a/b/f1", 50, 3, some "x", some "x", none⟩,
              ⟨2, "/r/a/b/f2", 60, 3, some "y", some "y", none⟩],
    dirs := [⟨1, "/r", none, none, none⟩, ⟨2, "/r/a", some 1, none, none⟩,
             ⟨3, "/r/a/b", some 2, none, none⟩],
    duplicates := [], nextDupId := 1 }

/-- Counterexample to claim C2 as stated: `dir_hash_update(b)` on `c2pre`
hashes `b` itself, but although `b` is not a root (it has parent `a`), the
propagation stops at once because `a`'s hash is still NULL — `a` and the
root keep a NULL hash instead of receiving `compute_dir_hash` values. -/
theorem claim2_counterexample :
    getDirParentID c2pre 3 = some 2 ∧
    getDirHash (dirHashUpdate md5Mock 10 c2pre 3) 3 = some (dirHasher md5Mock c2pre 3) ∧
    getDirHash (dirHashUpdate md5Mock 10 c2pre 3) 2 = none ∧
    getDirHash (dirHashUpdate md5Mock 10 c2pre 3) 1 = none := by
  decide

/-- A single large file whose stored partial hash already equals the next
probe value; no other file row exists at all. -/
def c3pre : Tables :=
  { files := [⟨1, "/x", 2000, 1, some "P", none, none⟩],
    dirs := [⟨1, "/", none, none, none⟩],
    duplicates := [], nextDupId := 1 }

/-- Counterexample to claim C3 as stated: with no *other* file row sharing
(size, partial hash), the first-pass probe still matches the file's own
row, so the call raises PartialHashCollision (against itself) instead of
writing the partial hash and returning. -/
theorem claim3_counterexample :
    c3pre.files.length = 1 ∧
    updateFileHash c3pre 1 "P" none = .error ⟨"/x", 1, "/x", 1, false⟩ := by
  decide

/-- Dirs d1, d2 form duplicate group 1 (hash "A"); d3 has hash "B" and no
group. -/
def c5pre : Tables :=
  { files := [],
    dirs := [⟨1, "/d1", none, some "A", some 1⟩, ⟨2, "/d2", none, some "A", some 1⟩,
             ⟨3, "/d3", none, some "B", none⟩],
    duplicates := [⟨1, "dir"⟩], nextDupId := 2 }

/-- The state after `updateDirHash(1, "B")` on `c5pre`: group 1 collapses,
but d1 immediately joins a fresh group 2 with d3 (whose hash equals the
new hash), so d1's duplicate_id is not NULL. -/
def c5post : Tables :=
  { files := [],
    dirs := [⟨1, "/d1", none, some "B", some 2⟩, ⟨2, "/d2", none, some "A", none⟩,
             ⟨3, "/d3", none, some "B", some 2⟩],
    duplicates := [⟨2, "dir"⟩], nextDupId := 3 }

/-- Counterexample to claim C5 as stated: exactly 2 dirs reference group 1
and the hash changes, yet after the call the updated member d1 holds a
non-NULL duplicate_id (it joined a new group for the new hash), so "sets
every member's duplicate_id to NULL" fails as a postcondition. -/
theorem claim5_counterexample :
    (sqlGetDirsFromDupID c5pre 1).length = 2 ∧
    updateDirHash c5pre 1 "B" = c5post ∧
    getDirRow c5post 1 = some ⟨1, "/d1", none, some "B", some 2⟩ := by
  decide

/-- Two large files of equal size; the second already has complete hash
"c", the first none. -/
def c7pre : Tables :=
  { files := [⟨1, "/a", 2000, 1, none, none, none⟩,
              ⟨2, "/b", 2000, 1, some "p", some "c", none⟩],
    dirs := [⟨1, "/", none, none, none⟩],
    duplicates := [], nextDupId := 1 }

/-- The state after the bare repair call `updateFileCompleteHash(1, "c")`
on `c7pre`: both files now share size and complete hash "c" with NULL
duplicate_ids. -/
def c7post : Tables :=
  { files := [⟨1, "/a", 2000, 1, none, some "c", none⟩,
              ⟨2, "/b", 2000, 1, some "p", some "c", none⟩],
    dirs := [⟨1, "/", none, none, none⟩],
    duplicates := [], nextDupId := 1 }

/-- Counterexample to claim C7 as stated: a sequence consisting of one
top-level collision-repair operation `updateFileCompleteHash` leaves two
files that share size and a non-null complete hash with NULL (hence not
equal-and-non-NULL) duplicate_ids. -/
theorem claim7_counterexample :
    pairLawB c7pre = true ∧
    updateFileCompleteHash c7pre 1 "c" = c7post ∧
    pairLawB c7post = false := by
  decide

/-! ## Counting lemmas -/

theorem countP_split {α : Type} (l : List α) (q r : α → Bool) :
    l.countP q =
      l.countP (fun x => q x && r x) + l.countP (fun x => q x && !r x) := by
  induction l with
  | nil => simp
  | cons a as ih =>
    by_cases hq : q a
    · by_cases hr : r a <;> simp [List.countP_cons, hq, hr, ih] <;> omega
    · simp [List.countP_cons, hq, ih]

theorem countP_key_le_one {α : Type} {l : List α} (key : α → Nat)
    (hnd : nodupB (l.map key) = true) (k : Nat) :
    l.countP (fun x => key x == k) ≤ 1 := by
  induction l with
  | nil => simp
  | cons a as ih =>
    rw [List.map_cons] at hnd
    obtain ⟨hna, hnd'⟩ := nodupB_cons.mp hnd
    by_cases h : (key a == k) = true
    · have hkey : key a = k := beq_iff_eq.mp h
      have hz : as.countP (fun x => key x == k) = 0 := by
        rw [List.countP_eq_zero]
        intro x hx hqx
        have hxk : key x = k := beq_iff_eq.mp hqx
        have hmem : key x ∈ as.map key := List.mem_map_of_mem key hx
        rw [hxk, ← hkey] at hmem
        simp [List.contains] at hna
        exact absurd (by simpa using hmem) (by simpa using hna)
      rw [List.countP_cons_of_pos (fun x => key x == k) as h, hz]
    · rw [List.countP_cons_of_neg (fun x => key x == k) as h]
      exact Nat.le_trans (ih hnd') (Nat.le_refl 1)

theorem two_le_countP_of_mem {α : Type} {l : List α} {x y : α} (q : α → Bool)
    (hx : x ∈ l) (hy : y ∈ l) (hxy : x ≠ y) (hqx : q x = true) (hqy : q y = true) :
    2 ≤ l.countP q := by
  induction l with
  | nil => cases hx
  | cons a as ih =>
    rcases List.mem_cons.mp hx with rfl | hx'
    · have hy' : y ∈ as := by
        rcases List.mem_cons.mp hy with h | h
        · exact absurd h.symm hxy
        · exact h
      have h1 : 0 < as.countP q := List.countP_pos_iff.mpr ⟨y, hy', hqy⟩
      rw [List.countP_cons_of_pos q as hqx]
      omega
    · rcases List.mem_cons.mp hy with rfl | hy'
      · have h1 : 0 < as.countP q := List.countP_pos_iff.mpr ⟨x, hx', hqx⟩
        rw [List.countP_cons_of_pos q as hqy]
        omega
      · have h2 := ih hx' hy'
        rw [List.countP_cons]
        omega

/-! ## Row lookup lemmas -/

theorem getFileRow_mapFiles {t : Tables} {g : FileRow → FileRow}
    (hg : ∀ x, (g x).id = x.id) (k : Nat) :
    getFileRow { t with files := t.files.map g } k = (getFileRow t k).map g :=
  find?_key_map t.files g (·.id) hg k

theorem getDirRow_mapDirs {t : Tables} {g : DirRow → DirRow}
    (hg : ∀ x, (g x).id = x.id) (k : Nat) :
    getDirRow { t with dirs := t.dirs.map g } k = (getDirRow t k).map g :=
  find?_key_map t.dirs g (·.id) hg k

theorem getFileRow_of_mem {t : Tables} (hnd : nodupB (t.files.map (·.id)) = true)
    {x : FileRow} (hx : x ∈ t.files) : getFileRow t x.id = some x :=
  find?_key_of_mem_nodup (fun f : FileRow => f.id) hnd hx

theorem getDirRow_of_mem {t : Tables} (hnd : nodupB (t.dirs.map (·.id)) = true)
    {x : DirRow} (hx : x ∈ t.dirs) : getDirRow t x.id = some x :=
  find?_key_of_mem_nodup (fun d : DirRow => d.id) hnd hx

/-! ## Well-formedness projections -/

theorem WFb_parts {t : Tables} (h : WFb t = true) :
    nodupB (t.files.map (·.id)) = true ∧ nodupB (t.dirs.map (·.id)) = true ∧
    nodupB (t.duplicates.map (·.id)) = true ∧
    (∀ f ∈ t.files, 1 ≤ f.id ∧ dupRefOk t.nextDupId f.duplicate_id = true) ∧
    (∀ d ∈ t.dirs, 1 ≤ d.id ∧ dupRefOk t.nextDupId d.duplicate_id = true) ∧
    (∀ D ∈ t.duplicates, 1 ≤ D.id ∧ D.id < t.nextDupId) ∧
    1 ≤ t.nextDupId := by
  unfold WFb at h
  simp only [Bool.and_eq_true, List.all_eq_true, decide_eq_true_eq] at h
  obtain ⟨⟨⟨⟨⟨⟨h1, h2⟩, h3⟩, h4⟩, h5⟩, h6⟩, h7⟩ := h
  exact ⟨h1, h2, h3, h4, h5, h6, h7⟩

/-- Rebuild `WFb` from its parts. -/
theorem WFb_intro {t : Tables}
    (h1 : nodupB (t.files.map (·.id)) = true)
    (h2 : nodupB (t.dirs.map (·.id)) = true)
    (h3 : nodupB (t.duplicates.map (·.id)) = true)
    (h4 : ∀ f ∈ t.files, 1 ≤ f.id ∧ dupRefOk t.nextDupId f.duplicate_id = true)
    (h5 : ∀ d ∈ t.dirs, 1 ≤ d.id ∧ dupRefOk t.nextDupId d.duplicate_id = true)
    (h6 : ∀ D ∈ t.duplicates, 1 ≤ D.id ∧ D.id < t.nextDupId)
    (h7 : 1 ≤ t.nextDupId) : WFb t = true := by
  unfold WFb
  simp only [Bool.and_eq_true, List.all_eq_true, decide_eq_true_eq]
  exact ⟨⟨⟨⟨⟨⟨h1, h2⟩, h3⟩, h4⟩, h5⟩, h6⟩, h7⟩

/-- A nullable duplicate reference that is well formed and Python-falsy is
NULL (rowids are positive). -/
theorem dupRef_falsy_eq_none {next : Nat} {r : Option Nat}
    (hok : dupRefOk next r = true) (hf : pyTruthyNat r = false) : r = none := by
  cases r with
  | none => rfl
  | some g =>
    simp [pyTruthyNat] at hf
    simp [dupRefOk, hf] at hok

/-- A well-formed non-NULL duplicate reference is Python-truthy. -/
theorem dupRef_some_truthy {next : Nat} {g : Nat}
    (hok : dupRefOk next (some g) = true) : pyTruthyNat (some g) = true := by
  simp [dupRefOk] at hok
  simp [pyTruthyNat]
  omega

/-! ## Specialized row lemmas -/

theorem getFileRow_sqlUpdateFile (t : Tables) (j : Nat) (h hc : Option String)
    (dup : Option Nat) (k : Nat) :
    getFileRow (sqlUpdateFile t j h hc dup) k =
      (getFileRow t k).map fun f =>
        if f.id = j then
          { f with hash := coalesce h f.hash,
                   hash_complete := coalesce hc f.hash_complete,
                   duplicate_id := coalesce dup f.duplicate_id }
        else f := by
  unfold sqlUpdateFile
  refine getFileRow_mapFiles ?_ k
  intro x
  by_cases hx : x.id = j <;> simp [hx]

theorem getDirRow_sqlUpdateDir (t : Tables) (j : Nat) (h : Option String)
    (dup : Option Nat) (k : Nat) :
    getDirRow (sqlUpdateDir t j h dup) k =
      (getDirRow t k).map fun d =>
        if d.id = j then
          { d with hash := coalesce h d.hash,
                   duplicate_id := coalesce dup d.duplicate_id }
        else d := by
  unfold sqlUpdateDir
  refine getDirRow_mapDirs ?_ k
  intro x
  by_cases hx : x.id = j <;> simp [hx]

theorem getDirRow_sqlDirRemoveDupID (t : Tables) (ids : List Nat) (k : Nat) :
    getDirRow (sqlDirRemoveDupID t ids) k =
      (getDirRow t k).map fun d =>
        if d.id ∈ ids then { d with duplicate_id := none } else d := by
  unfold sqlDirRemoveDupID
  refine getDirRow_mapDirs ?_ k
  intro x
  by_cases hx : x.id ∈ ids <;> simp [hx]

theorem getFileRow_props {t : Tables} {id : Nat} {f : FileRow}
    (h : getFileRow t id = some f) : f.id = id ∧ f ∈ t.files := by
  unfold getFileRow at h
  exact ⟨by simpa using List.find?_some h, List.mem_of_find?_eq_some h⟩

theorem getDirRow_props {t : Tables} {id : Nat} {d : DirRow}
    (h : getDirRow t id = some d) : d.id = id ∧ d ∈ t.dirs := by
  unfold getDirRow at h
  exact ⟨by simpa using List.find?_some h, List.mem_of_find?_eq_some h⟩

theorem mem_id_eq_row {t : Tables} {id : Nat} {f : FileRow}
    (hnd : nodupB (t.files.map (·.id)) = true)
    (hfind : getFileRow t id = some f) {x : FileRow} (hx : x ∈ t.files)
    (hid : x.id = id) : x = f := by
  have h1 : getFileRow t x.id = some x := getFileRow_of_mem hnd hx
  rw [hid, hfind] at h1
  exact (Option.some.injEq _ _ ▸ h1).symm

theorem mem_id_eq_dirRow {t : Tables} {id : Nat} {d : DirRow}
    (hnd : nodupB (t.dirs.map (·.id)) = true)
    (hfind : getDirRow t id = some d) {x : DirRow} (hx : x ∈ t.dirs)
    (hid : x.id = id) : x = d := by
  have h1 : getDirRow t x.id = some x := getDirRow_of_mem hnd hx
  rw [hid, hfind] at h1
  exact (Option.some.injEq _ _ ▸ h1).symm

/-! ## Law characterizations -/

theorem smallFileLawB_iff {t : Tables} :
    smallFileLawB t = true ↔
      ∀ f ∈ t.files, f.size < 1024 → f.hash ≠ none → f.hash_complete = f.hash := by
  unfold smallFileLawB
  rw [List.all_eq_true]
  constructor
  · intro h f hf hsz hh
    have hb := h f hf
    simp only [Bool.or_eq_true, Bool.not_eq_true', decide_eq_false_iff_not,
      beq_iff_eq] at hb
    rcases hb with (h1 | h1) | h1
    · exact absurd hsz h1
    · exact absurd h1 hh
    · exact h1
  · intro h f hf
    simp only [Bool.or_eq_true, Bool.not_eq_true', decide_eq_false_iff_not,
      beq_iff_eq]
    by_cases hsz : f.size < 1024
    · by_cases hh : f.hash = none
      · exact Or.inl (Or.inr hh)
      · exact Or.inr (h f hf hsz hh)
    · exact Or.inl (Or.inl hsz)

theorem getFileRow_sqlInsertDuplicate (t : Tables) (ty : String) (k : Nat) :
    getFileRow (sqlInsertDuplicate t ty).1 k = getFileRow t k := rfl

/-! ## Claim C6 -/

theorem find?_id_eq {l : List FileRow} {id : Nat} {f : FileRow}
    (h : l.find? (fun x => x.id == id) = some f) : f.id = id := by
  simpa using List.find?_some h

/-- Per-row preservation of the small-file law under a files-table map
that leaves rows other than the updated one intact on the relevant
columns and makes the updated row itself lawful. -/
theorem smallLaw_step {l : List FileRow} {id : Nat} {f : FileRow}
    (hndf : nodupB (l.map (·.id)) = true)
    (hfind : l.find? (fun x => x.id == id) = some f)
    (hlaw : ∀ x ∈ l, x.size < 1024 → x.hash ≠ none → x.hash_complete = x.hash)
    {G : FileRow → FileRow}
    (hGid : ∀ x, x.id ≠ id →
      (G x).size = x.size ∧ (G x).hash = x.hash ∧ (G x).hash_complete = x.hash_complete)
    (hGf : (G f).size < 1024 → (G f).hash ≠ none → (G f).hash_complete = (G f).hash) :
    ∀ y ∈ l.map G, y.size < 1024 → y.hash ≠ none → y.hash_complete = y.hash := by
  intro y hy
  obtain ⟨x, hx, rfl⟩ := List.mem_map.mp hy
  by_cases hxid : x.id = id
  · have hxf : x = f := by
      have h1 : l.find? (fun y => y.id == x.id) = some x :=
        find?_key_of_mem_nodup (fun z : FileRow => z.id) hndf hx
      rw [hxid, hfind] at h1
      injection h1 with h2
      exact h2.symm
    subst hxf
    exact hGf
  · obtain ⟨h1, h2, h3⟩ := hGid x hxid
    rw [h1, h2, h3]
    exact hlaw x hx

/-- Claim C6: for every file row F with size < 1024, any
`updateFileHash(F.id, p)` call — whatever complete-hash argument is
passed, and with `p` a digest, hence nonempty — succeeds and sets both
F.partial_hash and F.complete_hash to the same value p; consequently the
row invariant "size < 1024 and non-null partial hash implies complete
hash equals partial hash" is preserved by every successful
`updateFileHash` call on a well-formed state. -/
theorem claim6_small_file_law :
    (∀ t id p hc f, getFileRow t id = some f → f.size < 1024 → p ≠ "" →
      ∃ t', updateFileHash t id p hc = .ok t' ∧
        ∃ f', getFileRow t' id = some f' ∧
          f'.hash = some p ∧ f'.hash_complete = some p) ∧
    (∀ t id p hc t', WFb t = true → smallFileLawB t = true → p ≠ "" →
      updateFileHash t id p hc = .ok t' → smallFileLawB t' = true) := by
  constructor
  · intro t id p hc f hfind hsz hp
    have hfind' : t.files.find? (fun x => x.id == id) = some f := hfind
    have hid : f.id = id := (getFileRow_props hfind).1
    have htr : pyTruthyStr (some p) = true := by simp [pyTruthyStr, hp]
    simp only [updateFileHash, hfind', hsz, if_true, htr, Bool.not_true,
      Bool.false_eq_true, if_false]
    cases hres : seqGetDulpFile t f.size none (some p) with
    | none =>
      refine ⟨_, rfl, ?_⟩
      simp only [Option.map_none', Option.getD_none, pyTruthyNat, Bool.false_and,
        Bool.false_eq_true, if_false]
      rw [getFileRow_sqlUpdateFile, hfind]
      exact ⟨_, rfl, by simp [hid, coalesce], by simp [hid, coalesce]⟩
    | some r =>
      cases hcond : (pyTruthyNat (some r.id) && !pyTruthyNat r.duplicate_id) with
      | false =>
        refine ⟨_, rfl, ?_⟩
        simp only [Option.map_some', Option.getD_some, hcond, Bool.false_eq_true,
          if_false]
        rw [getFileRow_sqlUpdateFile, hfind]
        exact ⟨_, rfl, by simp [hid, coalesce], by simp [hid, coalesce]⟩
      | true =>
        refine ⟨_, rfl, ?_⟩
        simp only [Option.map_some', Option.getD_some, hcond, if_true]
        rw [getFileRow_sqlUpdateFile, getFileRow_sqlUpdateFile,
          getFileRow_sqlInsertDuplicate, hfind]
        simp only [Option.map_some']
        refine ⟨_, rfl, ?_, ?_⟩ <;>
          by_cases hfr : id = r.id <;> simp [hid, hfr, coalesce]
  · intro t id p hc t' hwf hlaw hp hok
    obtain ⟨hndf, _⟩ := WFb_parts hwf
    rw [smallFileLawB_iff] at hlaw
    unfold updateFileHash at hok
    cases hfind : t.files.find? (fun x => x.id == id) with
    | none =>
      rw [hfind] at hok
      cases hok
      rw [smallFileLawB_iff]
      exact hlaw
    | some f =>
      rw [hfind] at hok
      by_cases hsz : f.size < 1024
      · have htr : pyTruthyStr (some p) = true := by simp [pyTruthyStr, hp]
        simp only [hsz, if_true, htr, Bool.not_true, Bool.false_eq_true,
          if_false] at hok
        cases hres : seqGetDulpFile t f.size none (some p) with
        | none =>
          rw [hres] at hok
          simp only [Option.map_none', Option.getD_none, pyTruthyNat,
            Bool.false_and, Bool.false_eq_true, if_false] at hok
          cases hok
          rw [smallFileLawB_iff]
          show ∀ y ∈ t.files.map _, _
          exact smallLaw_step hndf hfind hlaw
            (fun x hxid => by simp [hxid])
            (by simp [find?_id_eq hfind, coalesce])
        | some r =>
          rw [hres] at hok
          cases hcond : (pyTruthyNat (some r.id) && !pyTruthyNat r.duplicate_id) with
          | false =>
            simp only [Option.map_some', Option.getD_some, hcond,
              Bool.false_eq_true, if_false] at hok
            cases hok
            rw [smallFileLawB_iff]
            show ∀ y ∈ t.files.map _, _
            exact smallLaw_step hndf hfind hlaw
              (fun x hxid => by simp [hxid])
              (by simp [find?_id_eq hfind, coalesce])
          | true =>
            simp only [Option.map_some', Option.getD_some, hcond, if_true] at hok
            cases hok
            rw [smallFileLawB_iff]
            show ∀ y ∈ (t.files.map _).map _, _
            rw [List.map_map]
            refine smallLaw_step hndf hfind hlaw ?_ ?_
            · intro x hxid
              by_cases hxr : x.id = r.id
              · have hrid : ¬ r.id = id := hxr ▸ hxid
                simp [Function.comp, hxr, hrid, coalesce]
              · simp [Function.comp, hxr, hxid, coalesce]
            · have hmem : f ∈ t.files := List.mem_of_find?_eq_some hfind
              simp only [Function.comp_apply, coalesce]
              split_ifs <;> intro h1 h2 <;>
                first
                | rfl
                | exact hlaw f hmem h1 h2
      · simp only [hsz, if_false] at hok
        by_cases htr : pyTruthyStr hc = true
        · simp only [htr, Bool.not_true, Bool.false_eq_true, if_false] at hok
          cases hres : seqGetDulpFile t f.size none hc with
          | none =>
            rw [hres] at hok
            simp only [Option.map_none', Option.getD_none, pyTruthyNat,
              Bool.false_and, Bool.false_eq_true, if_false] at hok
            cases hok
            rw [smallFileLawB_iff]
            show ∀ y ∈ t.files.map _, _
            refine smallLaw_step hndf hfind hlaw
              (fun x hxid => by simp [hxid]) ?_
            rw [if_pos (find?_id_eq hfind)]
            intro hsz' _
            exact absurd hsz' hsz
          | some r =>
            rw [hres] at hok
            cases hcond : (pyTruthyNat (some r.id) && !pyTruthyNat r.duplicate_id) with
            | false =>
              simp only [Option.map_some', Option.getD_some, hcond,
                Bool.false_eq_true, if_false] at hok
              cases hok
              rw [smallFileLawB_iff]
              show ∀ y ∈ t.files.map _, _
              refine smallLaw_step hndf hfind hlaw
                (fun x hxid => by simp [hxid]) ?_
              rw [if_pos (find?_id_eq hfind)]
              intro hsz' _
              exact absurd hsz' hsz
            | true =>
              simp only [Option.map_some', Option.getD_some, hcond, if_true] at hok
              cases hok
              rw [smallFileLawB_iff]
              show ∀ y ∈ (t.files.map _).map _, _
              rw [List.map_map]
              refine smallLaw_step hndf hfind hlaw ?_ ?_
              · intro x hxid
                by_cases hxr : x.id = r.id
                · have hrid : ¬ r.id = id := hxr ▸ hxid
                  simp [Function.comp, hxr, hrid, coalesce]
                · simp [Function.comp, hxr, hxid, coalesce]
              · simp only [Function.comp_apply]
                split_ifs <;> (intro h1 _; exact absurd h1 hsz)
        · simp only [Bool.not_eq_true] at htr
          simp only [htr, Bool.not_false, if_true] at hok
          cases hres : seqGetDulpFile t f.size (some p) none with
          | none =>
            rw [hres] at hok
            cases hok
            rw [smallFileLawB_iff]
            show ∀ y ∈ t.files.map _, _
            refine smallLaw_step hndf hfind hlaw
              (fun x hxid => by simp [hxid]) ?_
            rw [if_pos (find?_id_eq hfind)]
            intro hsz' _
            exact absurd hsz' hsz
          | some r =>
            rw [hres] at hok
            cases hok

/-- A concrete small-file state for the C6 witness. -/
def c6state : Tables :=
  { files := [⟨1, "/s", 10, 1, none, none, none⟩],
    dirs := [⟨1, "/", none, none, none⟩],
    duplicates := [], nextDupId := 1 }

/-- Witness for C6 at a concrete size-10 file. -/
theorem claim6_small_file_law_witness :
    ∃ t', updateFileHash c6state 1 "h1" none = .ok t' ∧
      ∃ f', getFileRow t' 1 = some f' ∧
        f'.hash = some "h1" ∧ f'.hash_complete = some "h1" :=
  claim6_small_file_law.1 c6state 1 "h1" none ⟨1, "/s", 10, 1, none, none, none⟩
    (by decide) (by decide) (by decide)

/-! ## Claim C3 -/

theorem getFileRow_sqlUpdateFile_other {t : Tables} {j k : Nat} (hk : k ≠ j)
    (h hc : Option String) (dup : Option Nat) :
    getFileRow (sqlUpdateFile t j h hc dup) k = getFileRow t k := by
  rw [getFileRow_sqlUpdateFile]
  cases hr : getFileRow t k with
  | none => rfl
  | some y =>
    have hr' : t.files.find? (fun x => x.id == k) = some y := hr
    have hy : y.id = k := by simpa using List.find?_some hr'
    simp [Option.map, hy, hk]

theorem getDirRow_sqlUpdateDir_other {t : Tables} {j k : Nat} (hk : k ≠ j)
    (h : Option String) (dup : Option Nat) :
    getDirRow (sqlUpdateDir t j h dup) k = getDirRow t k := by
  rw [getDirRow_sqlUpdateDir]
  cases hr : getDirRow t k with
  | none => rfl
  | some y =>
    have hr' : t.dirs.find? (fun x => x.id == k) = some y := hr
    have hy : y.id = k := by simpa using List.find?_some hr'
    simp [Option.map, hy, hk]

/-- Claim C3 (amended): for a file row F of size ≥ 1024 and a call with no
complete hash supplied, if no file row at all — including F's own row —
has the same size and partial hash p, then the call succeeds, sets only
F.partial_hash to p and leaves every other row unchanged; if the first
row R (in rowid order) with the same size and partial hash exists and has
a NULL complete hash, the call raises PartialHashCollision carrying
(R.id, R.path, R.dir_id, has_complete = false) and writes nothing (the
error return leaves the state unchanged). -/
theorem claim3_first_pass_probe :
    (∀ t id p f, getFileRow t id = some f → ¬ f.size < 1024 →
      seqGetDulpFile t f.size (some p) none = none →
      updateFileHash t id p none = .ok (sqlUpdateFile t id (some p) none none) ∧
      getFileRow (sqlUpdateFile t id (some p) none none) id =
        some { f with hash := some p } ∧
      (∀ k, k ≠ id →
        getFileRow (sqlUpdateFile t id (some p) none none) k = getFileRow t k)) ∧
    (∀ t id p f r, getFileRow t id = some f → ¬ f.size < 1024 →
      seqGetDulpFile t f.size (some p) none = some r → r.hash_complete = none →
      updateFileHash t id p none = .error ⟨f.path, r.id, r.path, r.dir_id, false⟩) := by
  constructor
  · intro t id p f hfind hsz hprobe
    have hfind' : t.files.find? (fun x => x.id == id) = some f := hfind
    have hid : f.id = id := (getFileRow_props hfind).1
    refine ⟨?_, ?_, ?_⟩
    · simp only [updateFileHash, hfind', hsz, if_false, pyTruthyStr,
        Bool.not_false, if_true, hprobe]
    · rw [getFileRow_sqlUpdateFile, hfind]
      simp [hid, coalesce]
    · intro k hk
      exact getFileRow_sqlUpdateFile_other hk _ _ _
  · intro t id p f r hfind hsz hprobe hrc
    have hfind' : t.files.find? (fun x => x.id == id) = some f := hfind
    simp only [updateFileHash, hfind', hsz, if_false, pyTruthyStr,
      Bool.not_false, if_true, hprobe, hrc]

/-- A single unhashed large file (C3 witness, no-collision part). -/
def c3w : Tables :=
  { files := [⟨1, "/x", 2000, 1, none, none, none⟩],
    dirs := [⟨1, "/", none, none, none⟩],
    duplicates := [], nextDupId := 1 }

/-- Two large files, the first with partial hash "P" and no complete hash
(C3 witness, collision part). -/
def c3x : Tables :=
  { files := [⟨1, "/x", 3000, 1, some "P", none, none⟩,
              ⟨2, "/y", 3000, 1, none, none, none⟩],
    dirs := [⟨1, "/", none, none, none⟩],
    duplicates := [], nextDupId := 1 }

/-- Witness for C3 at concrete states: the no-match write and the
collision signal. -/
theorem claim3_first_pass_probe_witness :
    updateFileHash c3w 1 "P" none = .ok (sqlUpdateFile c3w 1 (some "P") none none) ∧
    updateFileHash c3x 2 "P" none = .error ⟨"/y", 1, "/x", 1, false⟩ :=
  ⟨(claim3_first_pass_probe.1 c3w 1 "P" ⟨1, "/x", 2000, 1, none, none, none⟩
      (by decide) (by decide) (by decide)).1,
    claim3_first_pass_probe.2 c3x 2 "P" ⟨2, "/y", 3000, 1, none, none, none⟩
      ⟨1, "/x", 3000, 1, some "P", none, none⟩
      (by decide) (by decide) (by decide) (by decide)⟩

/-! ## Claim C4 -/

/-- Two fresh small files of size 50 (the C4 scenario start). -/
def c4a : Tables :=
  { files := [⟨1, "/a", 50, 1, none, none, none⟩, ⟨2, "/b", 50, 1, none, none, none⟩],
    dirs := [⟨1, "/", none, none, none⟩],
    duplicates := [], nextDupId := 1 }

/-- The C4 scenario after hashing `/a` with "H". -/
def c4b : Tables :=
  { files := [⟨1, "/a", 50, 1, some "H", some "H", none⟩,
              ⟨2, "/b", 50, 1, none, none, none⟩],
    dirs := [⟨1, "/", none, none, none⟩],
    duplicates := [], nextDupId := 1 }

/-- The C4 scenario after hashing `/b` with "H": one Duplicate row of type
"file", both files attached. -/
def c4c : Tables :=
  { files := [⟨1, "/a", 50, 1, some "H", some "H", some 1⟩,
              ⟨2, "/b", 50, 1, some "H", some "H", some 1⟩],
    dirs := [⟨1, "/", none, none, none⟩],
    duplicates := [⟨1, "file"⟩], nextDupId := 2 }

/-- Claim C4: second-pass attach.  With the effective complete hash c
known for F (the supplied value, or p itself for a small file), if the
probe finds a row G with the same size and complete_hash = c whose
duplicate_id is NULL, then — in one transaction — a fresh Duplicate row of
type "file" is inserted, G.duplicate_id is set to it, and F's hashes and
duplicate_id are set to (p, c, that id).  In particular, hashing two
files of size 50 with the same partial hash "H" yields exactly one
Duplicate row of type "file", referenced by both files, both with
complete_hash = "H". -/
theorem claim4_second_pass_attach :
    (∀ t id p c hcArg f G, WFb t = true →
      getFileRow t id = some f →
      (if f.size < 1024 then some p else hcArg) = some c → c ≠ "" →
      seqGetDulpFile t f.size none (some c) = some G → G.duplicate_id = none →
      G.id ≠ id →
      ∃ t', updateFileHash t id p hcArg = .ok t' ∧
        t'.duplicates = t.duplicates ++ [⟨t.nextDupId, "file"⟩] ∧
        getFileRow t' G.id = some { G with duplicate_id := some t.nextDupId } ∧
        getFileRow t' id =
          some { f with hash := some p, hash_complete := some c,
                        duplicate_id := some t.nextDupId }) ∧
    (updateFileHash c4a 1 "H" none = .ok c4b ∧
      updateFileHash c4b 2 "H" none = .ok c4c ∧
      c4c.duplicates = [⟨1, "file"⟩] ∧
      getFileRow c4c 1 = some ⟨1, "/a", 50, 1, some "H", some "H", some 1⟩ ∧
      getFileRow c4c 2 = some ⟨2, "/b", 50, 1, some "H", some "H", some 1⟩) := by
  constructor
  · intro t id p c hcArg f G hwf hfind heff hc hprobe hGdup hGid
    obtain ⟨hndf, _⟩ := WFb_parts hwf
    have hfind' : t.files.find? (fun x => x.id == id) = some f := hfind
    have hid : f.id = id := (getFileRow_props hfind).1
    have hGmem : G ∈ t.files := List.mem_of_find?_eq_some hprobe
    have hGpos : 1 ≤ G.id := ((WFb_parts hwf).2.2.2.1 G hGmem).1
    have htr : pyTruthyStr (some c) = true := by simp [pyTruthyStr, hc]
    have hG0 : (G.id != 0) = true := by
      simp
      omega
    simp only [updateFileHash, hfind', heff, htr, Bool.not_true,
      Bool.false_eq_true, if_false, hprobe, Option.map_some', Option.getD_some,
      hGdup, pyTruthyNat, Bool.not_false, hG0, Bool.and_true, if_true]
    refine ⟨_, rfl, rfl, ?_, ?_⟩
    · rw [getFileRow_sqlUpdateFile, getFileRow_sqlUpdateFile,
        getFileRow_sqlInsertDuplicate, getFileRow_of_mem hndf hGmem]
      simp [Option.map, hGid, hGdup, coalesce]
      rfl
    · rw [getFileRow_sqlUpdateFile,
        getFileRow_sqlUpdateFile_other (fun h => hGid h.symm) _ _ _,
        getFileRow_sqlInsertDuplicate, hfind]
      simp [Option.map, hid, coalesce]
      rfl
  · refine ⟨by decide, by decide, by decide, by decide, by decide⟩

/-- A state instantiating the general part of C4: a large file G with
complete hash "C" and no group, and a fresh large file F. -/
def c4w : Tables :=
  { files := [⟨1, "/g", 4000, 1, some "P", some "C", none⟩,
              ⟨2, "/f", 4000, 1, none, none, none⟩],
    dirs := [⟨1, "/", none, none, none⟩],
    duplicates := [], nextDupId := 1 }

/-! ## Claim C8 -/

/-- The digest selection as the specification words it: complete_hash if
non-null, else hash if non-null, else the empty string (NULL-based, where
the source's Python `or` chain is truthiness-based). -/
def specSelectDigest (hash hash_complete : Option String) : String :=
  match hash_complete with
  | some s => s
  | none =>
    match hash with
    | some s => s
    | none => ""

/-- `getChildrenHashes` with the specification's selection rule. -/
def getChildrenHashesSpec (t : Tables) (id : Nat) : List String :=
  (sortByID (childrenRows t id)).map fun r => specSelectDigest r.2.1 r.2.2

theorem mem_insertByID {x y : ChildRow} {l : List ChildRow} :
    y ∈ insertByID x l ↔ y = x ∨ y ∈ l := by
  induction l with
  | nil => simp [insertByID]
  | cons a as ih =>
    by_cases hlt : x.1 < a.1
    · simp [insertByID, hlt]
    · simp only [insertByID, hlt, if_false, List.mem_cons, ih]
      tauto

theorem mem_sortByID {y : ChildRow} {l : List ChildRow} :
    y ∈ sortByID l ↔ y ∈ l := by
  induction l with
  | nil => simp [sortByID]
  | cons a as ih =>
    show y ∈ insertByID a (sortByID as) ↔ _
    rw [mem_insertByID, ih]
    simp

/-- Claim C8: `compute_dir_hash` is a deterministic function of the
immediate-children rows (child files contribute (id, hash, complete_hash),
child dirs contribute (id, hash, NULL); the rows are ordered by id, each
mapped to its selected digest, joined by newlines and digested): equal
child rows always yield an equal result, whatever the digest function of
the partial-hash family is; and on rows whose stored digests are nonempty
(md5 hex digests always are) the source's selection agrees with the
specification's "complete_hash if non-null, else hash if non-null, else
empty string". -/
theorem claim8_dir_hash_deterministic :
    (∀ (md5 : String → String) t t2 id id2,
      childrenRows t id = childrenRows t2 id2 →
      dirHasher md5 t id = dirHasher md5 t2 id2) ∧
    (∀ t id,
      (∀ r ∈ childrenRows t id, r.2.1 ≠ some "" ∧ r.2.2 ≠ some "") →
      getChildrenHashes t id = getChildrenHashesSpec t id) := by
  constructor
  · intro md5 t t2 id id2 hrows
    unfold dirHasher getChildrenHashes
    rw [hrows]
  · intro t id hno
    unfold getChildrenHashes getChildrenHashesSpec
    apply List.map_congr_left
    intro r hr
    obtain ⟨h1, h2⟩ := hno r (mem_sortByID.mp hr)
    cases hc : r.2.2 with
    | some s =>
      have hs : s ≠ "" := by
        rintro rfl
        rw [hc] at h2
        exact h2 rfl
      simp [pySelectDigest, specSelectDigest, hc, pyTruthyStr, hs]
    | none =>
      cases hh : r.2.1 with
      | some s =>
        have hs : s ≠ "" := by
          rintro rfl
          rw [hh] at h1
          exact h1 rfl
        simp [pySelectDigest, specSelectDigest, hc, hh, pyTruthyStr, hs]
      | none =>
        simp [pySelectDigest, specSelectDigest, hc, hh, pyTruthyStr]

/-- A directory with one hashed file child and one hashed dir child
(C8 witness). -/
def c8w : Tables :=
  { files := [⟨1, "/f", 10, 1, some "fh", some "fc", none⟩],
    dirs := [⟨1, "/", none, none, none⟩, ⟨2, "/s", some 1, some "dh", none⟩],
    duplicates := [], nextDupId := 1 }

/-- A differently-arranged catalog whose dir 5 has exactly the same child
rows as `c8w`'s dir 1 (C8 witness). -/
def c8x : Tables :=
  { files := [⟨1, "/x/f", 10, 5, some "fh", some "fc", none⟩],
    dirs := [⟨5, "/x", none, none, none⟩, ⟨2, "/x/s", some 5, some "dh", none⟩],
    duplicates := [], nextDupId := 1 }

/-- Witness for C8: equal child rows in different catalogs give the same
dir hash, and the selection refinement holds at `c8w`. -/
theorem claim8_dir_hash_deterministic_witness :
    dirHasher md5Mock c8w 1 = dirHasher md5Mock c8x 5 ∧
    getChildrenHashes c8w 1 = getChildrenHashesSpec c8w 1 :=
  ⟨claim8_dir_hash_deterministic.1 md5Mock c8w c8x 1 5 (by decide),
    claim8_dir_hash_deterministic.2 c8w 1 (by decide)⟩

/-! ## Claim C2 -/

theorem getDirHash_bind (t : Tables) (k : Nat) :
    getDirHash t k = (getDirRow t k).bind (·.hash) := rfl

theorem getDirHash_sqlUpdateDir_other {t : Tables} {j k : Nat} (hk : k ≠ j)
    (hs : Option String) (dup : Option Nat) :
    getDirHash (sqlUpdateDir t j hs dup) k = getDirHash t k := by
  rw [getDirHash_bind, getDirHash_bind, getDirRow_sqlUpdateDir_other hk]

theorem getDirHash_sqlUpdateDir_none (t : Tables) (j : Nat) (dup : Option Nat)
    (k : Nat) : getDirHash (sqlUpdateDir t j none dup) k = getDirHash t k := by
  rw [getDirHash_bind, getDirHash_bind, getDirRow_sqlUpdateDir]
  cases hr : getDirRow t k with
  | none => rfl
  | some y => by_cases hy : y.id = j <;> simp [Option.map, hy, coalesce]

theorem getDirHash_sqlDirRemoveDupID (t : Tables) (ids : List Nat) (k : Nat) :
    getDirHash (sqlDirRemoveDupID t ids) k = getDirHash t k := by
  rw [getDirHash_bind, getDirHash_bind, getDirRow_sqlDirRemoveDupID]
  cases hr : getDirRow t k with
  | none => rfl
  | some y => by_cases hy : y.id ∈ ids <;> simp [Option.map, hy]

theorem getDirHash_sqlRemoveDuplicate (t : Tables) (j k : Nat) :
    getDirHash (sqlRemoveDuplicate t j) k = getDirHash t k := rfl

theorem getDirHash_sqlInsertDuplicate (t : Tables) (ty : String) (k : Nat) :
    getDirHash (sqlInsertDuplicate t ty).1 k = getDirHash t k := rfl

/-- `updateDirHash` only writes the hash column of the dir it updates:
every other dir keeps its hash. -/
theorem getDirHash_updateDirHash_other {t : Tables} {id k : Nat} (hk : k ≠ id)
    (h : String) : getDirHash (updateDirHash t id h) k = getDirHash t k := by
  unfold updateDirHash
  cases hfd : t.dirs.find? (fun x => x.id == id) with
  | none => rfl
  | some d =>
    by_cases hold : (d.hash == some h) = true
    · simp [hold]
    · simp only [hold, Bool.false_eq_true, if_false]
      rw [getDirHash_sqlUpdateDir_other hk]
      repeat' split
      all_goals
        simp only [getDirHash_sqlUpdateDir_none, getDirHash_sqlInsertDuplicate,
          getDirHash_sqlRemoveDuplicate, getDirHash_sqlDirRemoveDupID]

/-- Claim C2 (amended): `dir_hash_update(id)` recomputes the hash via
`dir_hasher`, applies it via `updateDirHash`, and then recurses into the
parent only when `id` has a parent whose hash is already non-NULL.
Propagation stops at a root or at the first ancestor whose hash is still
NULL: in that case the call is exactly the single local update and every
dir other than `id` — in particular every ancestor — keeps its previous
hash.  When the parent's hash is non-NULL the call continues as
`dir_hash_update(parent)` on the updated state. -/
theorem claim2_dir_hash_propagation (md5 : String → String) (fuel : Nat)
    (t : Tables) (id parent : Nat)
    (hpar : getDirParentID (updateDirHash t id (dirHasher md5 t id)) id = some parent) :
    (getDirHash (updateDirHash t id (dirHasher md5 t id)) parent = none →
      dirHashUpdate md5 (fuel + 1) t id = updateDirHash t id (dirHasher md5 t id) ∧
      ∀ k, k ≠ id →
        getDirHash (dirHashUpdate md5 (fuel + 1) t id) k = getDirHash t k) ∧
    (∀ hsh, getDirHash (updateDirHash t id (dirHasher md5 t id)) parent = some hsh →
      dirHashUpdate md5 (fuel + 1) t id =
        dirHashUpdate md5 fuel (updateDirHash t id (dirHasher md5 t id)) parent) := by
  constructor
  · intro hnone
    have heq : dirHashUpdate md5 (fuel + 1) t id =
        updateDirHash t id (dirHasher md5 t id) := by
      simp only [dirHashUpdate, hpar, hnone]
    refine ⟨heq, ?_⟩
    intro k hk
    rw [heq]
    exact getDirHash_updateDirHash_other hk _
  · intro hsh hsome
    simp only [dirHashUpdate, hpar, hsome]

/-! ## Claim C5 -/

/-- If no dir row carries the probed hash, `_sqlFindDupDirFromHash`
returns nothing. -/
theorem findDupDir_none_of_no_hash {t : Tables} {h : String}
    (hno : ∀ e ∈ t.dirs, e.hash ≠ some h) : sqlFindDupDirFromHash t h = none := by
  unfold sqlFindDupDirFromHash
  rw [List.find?_eq_none.mpr]
  · rfl
  · intro x hx
    simp [hno x hx]

/-- Clearing duplicate ids does not touch the hash column. -/
theorem no_hash_after_clear {t : Tables} {l : List Nat} {h : String}
    (hno : ∀ e ∈ t.dirs, e.hash ≠ some h) :
    ∀ e ∈ (sqlDirRemoveDupID t l).dirs, e.hash ≠ some h := by
  intro e he
  simp only [sqlDirRemoveDupID, List.mem_map] at he
  obtain ⟨x, hx, rfl⟩ := he
  by_cases hxl : x.id ∈ l <;> simp [hxl, hno x hx]

theorem getDirRow_sqlRemoveDuplicate (t : Tables) (j k : Nat) :
    getDirRow (sqlRemoveDuplicate t j) k = getDirRow t k := rfl

/-- Claim C5 (amended): for a dir `id` in duplicate group `g`, when
`update_dir_hash(id, h)` is called with `h` different from the old hash
and no dir row's hash equals `h` (so `id` does not rejoin a group):
if exactly 2 dirs reference `g`, the group row `g` is deleted and every
member's duplicate_id becomes NULL; if 3 or more dirs reference `g`, the
duplicates table is unchanged and every dir other than `id` is wholly
unchanged (so `g` and the other members' references survive) while only
`id` is detached; in both cases `id`'s hash becomes `h` and its
duplicate_id is NULL. -/
theorem claim5_group_lifecycle :
    ∀ t id h g d, WFb t = true → getDirRow t id = some d →
      d.duplicate_id = some g → d.hash ≠ some h →
      (∀ e ∈ t.dirs, e.hash ≠ some h) →
      (((sqlGetDirsFromDupID t g).length = 2 →
        (updateDirHash t id h).duplicates =
          t.duplicates.filter (fun D => D.id != g) ∧
        (∀ k ∈ sqlGetDirsFromDupID t g, ∃ e,
          getDirRow (updateDirHash t id h) k = some e ∧ e.duplicate_id = none) ∧
        getDirRow (updateDirHash t id h) id =
          some { d with hash := some h, duplicate_id := none }) ∧
      (3 ≤ (sqlGetDirsFromDupID t g).length →
        (updateDirHash t id h).duplicates = t.duplicates ∧
        (∀ k, k ≠ id → getDirRow (updateDirHash t id h) k = getDirRow t k) ∧
        getDirRow (updateDirHash t id h) id =
          some { d with hash := some h, duplicate_id := none })) := by
  intro t id h g d hwf hfind hdup hne hnomatch
  obtain ⟨_, hndd, _⟩ := WFb_parts hwf
  have hfd : t.dirs.find? (fun x => x.id == id) = some d := hfind
  have hid : d.id = id := (getDirRow_props hfind).1
  have hdmem : d ∈ t.dirs := (getDirRow_props hfind).2
  have hgpos : 1 ≤ g := by
    have hh := ((WFb_parts hwf).2.2.2.2.1 d hdmem).2
    rw [hdup] at hh
    simp [dupRefOk] at hh
    omega
  have hold : (d.hash == some h) = false := by simp [hne]
  have htg : pyTruthyNat (some g) = true := by
    simp [pyTruthyNat]
    omega
  have hg0 : (g != 0) = true := by
    simp
    omega
  have hidS : id ∈ sqlGetDirsFromDupID t g := by
    have hdf : d ∈ t.dirs.filter (fun x => x.duplicate_id == some g) :=
      List.mem_filter.mpr ⟨hdmem, by simp [hdup]⟩
    have h2 : d.id ∈ (t.dirs.filter
        (fun x => x.duplicate_id == some g)).map (fun x => x.id) :=
      List.mem_map_of_mem _ hdf
    rw [hid] at h2
    exact h2
  have hdS : d.id ∈ sqlGetDirsFromDupID t g := by
    rw [hid]
    exact hidS
  constructor
  · intro hS2
    have hlen2 : ((sqlGetDirsFromDupID t g).length == 2) = true := by simp [hS2]
    have hfound : sqlFindDupDirFromHash
        (sqlRemoveDuplicate (sqlDirRemoveDupID t (sqlGetDirsFromDupID t g)) g)
        h = none :=
      findDupDir_none_of_no_hash (no_hash_after_clear hnomatch)
    simp only [updateDirHash, hfd, hold, Bool.false_eq_true, if_false, hdup,
      htg, hg0, if_true, Option.getD_some, hlen2, hfound, Option.map_none',
      Option.getD_none, pyTruthyNat, Bool.false_and, Bool.false_eq_true]
    refine ⟨rfl, ?_, ?_⟩
    · intro k hkS
      obtain ⟨x, hxf, hxk⟩ := List.mem_map.mp hkS
      obtain ⟨hxmem, _⟩ := List.mem_filter.mp hxf
      have hrow : getDirRow t k = some x := by
        rw [← hxk]
        exact getDirRow_of_mem hndd hxmem
      have hxS : x.id ∈ sqlGetDirsFromDupID t g := by
        rw [hxk]
        exact hkS
      rw [getDirRow_sqlUpdateDir, getDirRow_sqlRemoveDuplicate,
        getDirRow_sqlDirRemoveDupID, hrow]
      simp only [Option.map_some']
      rw [if_pos hxS]
      split
      · exact ⟨_, rfl, rfl⟩
      · exact ⟨_, rfl, rfl⟩
    · rw [getDirRow_sqlUpdateDir, getDirRow_sqlRemoveDuplicate,
        getDirRow_sqlDirRemoveDupID, hfind]
      simp only [Option.map_some']
      rw [if_pos hdS]
      simp [hid, coalesce]
  · intro hS3
    have hlenF : ((sqlGetDirsFromDupID t g).length == 2) = false := by
      simp
      omega
    have hfound : sqlFindDupDirFromHash (sqlDirRemoveDupID t [id]) h = none :=
      findDupDir_none_of_no_hash (no_hash_after_clear hnomatch)
    simp only [updateDirHash, hfd, hold, Bool.false_eq_true, if_false, hdup,
      htg, hg0, if_true, Option.getD_some, hlenF, hfound, Option.map_none',
      Option.getD_none, pyTruthyNat, Bool.false_and, Bool.false_eq_true]
    refine ⟨rfl, ?_, ?_⟩
    · intro k hk
      rw [getDirRow_sqlUpdateDir_other hk, getDirRow_sqlDirRemoveDupID]
      cases hr : getDirRow t k with
      | none => rfl
      | some y =>
        have hr' : t.dirs.find? (fun x => x.id == k) = some y := hr
        have hy : y.id = k := by simpa using List.find?_some hr'
        simp [Option.map, hy, hk]
    · rw [getDirRow_sqlUpdateDir, getDirRow_sqlDirRemoveDupID, hfind]
      simp only [Option.map_some']
      rw [if_pos (show d.id ∈ [id] by simp [hid])]
      simp [hid, coalesce]

/-- A three-member group for the C5 witness: d1, d2, d3 share hash "H"
and group 1. -/
def c5w : Tables :=
  { files := [],
    dirs := [⟨1, "/d1", none, some "H", some 1⟩, ⟨2, "/d2", none, some "H", some 1⟩,
             ⟨3, "/d3", none, some "H", some 1⟩],
    duplicates := [⟨1, "dir"⟩], nextDupId := 2 }

/-- Witness for C5 applying the persistence branch at `c5w`:
`update_dir_hash(1, "H2")` keeps the group, leaves d2 and d3 untouched and
detaches d1. -/
theorem claim5_group_lifecycle_witness :
    (updateDirHash c5w 1 "H2").duplicates = c5w.duplicates ∧
    (∀ k, k ≠ 1 → getDirRow (updateDirHash c5w 1 "H2") k = getDirRow c5w k) ∧
    getDirRow (updateDirHash c5w 1 "H2") 1 =
      some { id := 1, path := "/d1", parent_id := none, hash := some "H2",
             duplicate_id := none } :=
  (claim5_group_lifecycle c5w 1 "H2" 1 ⟨1, "/d1", none, some "H", some 1⟩
    (by decide) (by decide) (by decide) (by decide)
    (by decide)).2 (by decide)

/-- A two-level chain for the C2 witness: the parent has no hash yet, so
the call is the single local update. -/
def c2w : Tables :=
  { files := [⟨1, "/r/a/f", 50, 2, some "x", some "x", none⟩],
    dirs := [⟨1, "/r", none, none, none⟩, ⟨2, "/r/a", some 1, none, none⟩],
    duplicates := [], nextDupId := 1 }

/-- Witness for C2: on `c2w` the call updates only dir 2, and the root's
hash stays as it was. -/
theorem claim2_dir_hash_propagation_witness :
    dirHashUpdate md5Mock 5 c2w 2 = updateDirHash c2w 2 (dirHasher md5Mock c2w 2) ∧
    getDirHash (dirHashUpdate md5Mock 5 c2w 2) 1 = getDirHash c2w 1 :=
  letI h := (claim2_dir_hash_propagation md5Mock 4 c2w 2 1 (by decide)).1 (by decide)
  ⟨h.1, h.2 1 (by decide)⟩

/-- Witness for C4 applying the general attach step at `c4w`. -/
theorem claim4_second_pass_attach_witness :
    ∃ t', updateFileHash c4w 2 "P" (some "C") = .ok t' ∧
      t'.duplicates = c4w.duplicates ++ [⟨c4w.nextDupId, "file"⟩] ∧
      getFileRow t' 1 =
        some { id := 1, path := "/g", size := 4000, dir_id := 1, hash := some "P",
               hash_complete := some "C", duplicate_id := some c4w.nextDupId } ∧
      getFileRow t' 2 =
        some { id := 2, path := "/f", size := 4000, dir_id := 1, hash := some "P",
               hash_complete := some "C", duplicate_id := some c4w.nextDupId } :=
  claim4_second_pass_attach.1 c4w 2 "P" "C" (some "C")
    ⟨2, "/f", 4000, 1, none, none, none⟩
    ⟨1, "/g", 4000, 1, some "P", some "C", none⟩
    (by decide) (by decide) (by decide) (by decide) (by decide) (by decide)
    (by decide)

/-! ## Claim C7 -/

/-- The four shapes a successful `updateFileHash` run can take: missing
file (the embedding's no-op), first-pass write, plain second-pass update
(probe empty or probe row already grouped), and the group-creating attach. -/
theorem updateFileHash_ok_cases {t : Tables} {id : Nat} {p : String}
    {hc : Option String} {t' : Tables} (h : updateFileHash t id p hc = .ok t') :
    (t.files.find? (fun x => x.id == id) = none ∧ t' = t) ∨
    ∃ f, t.files.find? (fun x => x.id == id) = some f ∧
      ((pyTruthyStr (if f.size < 1024 then some p else hc) = false ∧
        seqGetDulpFile t f.size (some p) none = none ∧
        t' = sqlUpdateFile t id (some p) none none) ∨
      (pyTruthyStr (if f.size < 1024 then some p else hc) = true ∧
        ((seqGetDulpFile t f.size none (if f.size < 1024 then some p else hc) = none ∧
          t' = sqlUpdateFile t id (some p) (if f.size < 1024 then some p else hc) none) ∨
        (∃ r, seqGetDulpFile t f.size none (if f.size < 1024 then some p else hc) = some r ∧
          (pyTruthyNat (some r.id) && !pyTruthyNat r.duplicate_id) = false ∧
          t' = sqlUpdateFile t id (some p) (if f.size < 1024 then some p else hc)
            r.duplicate_id) ∨
        (∃ r, seqGetDulpFile t f.size none (if f.size < 1024 then some p else hc) = some r ∧
          (pyTruthyNat (some r.id) && !pyTruthyNat r.duplicate_id) = true ∧
          t' = sqlUpdateFile (sqlUpdateFile (sqlInsertDuplicate t "file").1 r.id
            none none (some t.nextDupId)) id (some p)
            (if f.size < 1024 then some p else hc) (some t.nextDupId))))) := by
  unfold updateFileHash at h
  cases hfind : t.files.find? (fun x => x.id == id) with
  | none =>
    rw [hfind] at h
    cases h
    exact Or.inl ⟨rfl, rfl⟩
  | some f =>
    rw [hfind] at h
    refine Or.inr ⟨f, rfl, ?_⟩
    by_cases htr : pyTruthyStr (if f.size < 1024 then some p else hc) = true
    · refine Or.inr ⟨htr, ?_⟩
      simp only [htr, Bool.not_true, Bool.false_eq_true, if_false] at h
      cases hres : seqGetDulpFile t f.size none (if f.size < 1024 then some p else hc) with
      | none =>
        rw [hres] at h
        simp only [Option.map_none', Option.getD_none, pyTruthyNat,
          Bool.false_and, Bool.false_eq_true, if_false] at h
        cases h
        exact Or.inl ⟨rfl, rfl⟩
      | some r =>
        rw [hres] at h
        simp only [Option.map_some', Option.getD_some] at h
        cases hcond : (pyTruthyNat (some r.id) && !pyTruthyNat r.duplicate_id) with
        | false =>
          rw [hcond] at h
          simp only [Bool.false_eq_true, if_false] at h
          cases h
          exact Or.inr (Or.inl ⟨r, rfl, hcond, rfl⟩)
        | true =>
          rw [hcond] at h
          simp only [if_true] at h
          cases h
          exact Or.inr (Or.inr ⟨r, rfl, hcond, rfl⟩)
    · rw [Bool.not_eq_true] at htr
      refine Or.inl ⟨htr, ?_⟩
      simp only [htr, Bool.not_false, if_true] at h
      cases hres : seqGetDulpFile t f.size (some p) none with
      | none =>
        rw [hres] at h
        cases h
        exact ⟨rfl, rfl⟩
      | some r =>
        rw [hres] at h
        cases h

/-- The pair law as a proposition over rows. -/
theorem pairLawB_iff {t : Tables} :
    pairLawB t = true ↔
      ∀ a ∈ t.files, ∀ b ∈ t.files, a.id ≠ b.id → a.size = b.size →
        sqlEqStr a.hash_complete b.hash_complete = true →
        a.duplicate_id = b.duplicate_id ∧ a.duplicate_id ≠ none := by
  unfold pairLawB
  rw [List.all_eq_true]
  constructor
  · intro h a ha b hb hne hsz hhc
    have hb2 := List.all_eq_true.mp (h a ha) b hb
    simp only [Bool.or_eq_true, Bool.and_eq_true, beq_iff_eq, bne_iff_ne,
      Bool.not_eq_true'] at hb2
    rcases hb2 with (h1 | h1) | h1
    · exact absurd h1 hne
    · rw [Bool.and_eq_false_iff] at h1
      rcases h1 with h1 | h1
      · exact absurd hsz (by simpa using h1)
      · rw [h1] at hhc
        cases hhc
    · exact ⟨h1.1, by simpa using h1.2⟩
  · intro h a ha
    rw [List.all_eq_true]
    intro b hb
    simp only [Bool.or_eq_true, Bool.and_eq_true, beq_iff_eq, bne_iff_ne,
      Bool.not_eq_true']
    by_cases hne : a.id = b.id
    · exact Or.inl (Or.inl hne)
    · by_cases hsz : a.size = b.size
      · by_cases hhc : sqlEqStr a.hash_complete b.hash_complete = true
        · obtain ⟨hd, hdn⟩ := h a ha b hb hne hsz hhc
          exact Or.inr ⟨hd, by simpa using hdn⟩
        · refine Or.inl (Or.inr ?_)
          rw [Bool.and_eq_false_iff]
          exact Or.inr (by simpa using hhc)
      · refine Or.inl (Or.inr ?_)
        rw [Bool.and_eq_false_iff]
        exact Or.inl (by simp [hsz])

theorem sqlEqStr_none_right (a : Option String) : sqlEqStr a none = false := by
  cases a <;> rfl

theorem sqlEqStr_some_iff {a : Option String} {c : String} :
    sqlEqStr a (some c) = true ↔ a = some c := by
  cases a with
  | none => simp [sqlEqStr]
  | some u => simp [sqlEqStr]

theorem sqlEqStr_symm (a b : Option String) : sqlEqStr a b = sqlEqStr b a := by
  cases a <;> cases b <;> simp [sqlEqStr, BEq.comm]

theorem sqlEqStr_refl (c : String) : sqlEqStr (some c) (some c) = true := by
  simp [sqlEqStr]

/-- Facts about a successful second-pass probe. -/
theorem seqGetDulpFile_some_facts {t : Tables} {size : Nat} {hcq : Option String}
    {r : FileRow} (h : seqGetDulpFile t size none hcq = some r) :
    r ∈ t.files ∧ r.size = size ∧ r.hash_complete = hcq ∧ ∃ c, hcq = some c := by
  unfold seqGetDulpFile at h
  have hmem := List.mem_of_find?_eq_some h
  have hp := List.find?_some h
  simp only [Bool.and_eq_true, Bool.or_eq_true, beq_iff_eq,
    sqlEqStr_none_right, Bool.false_eq_true, false_or] at hp
  obtain ⟨hsz, hhc⟩ := hp
  cases hcq with
  | none => rw [sqlEqStr_none_right] at hhc; cases hhc
  | some c =>
    exact ⟨hmem, hsz, sqlEqStr_some_iff.mp hhc, c, rfl⟩

/-- Facts about an empty second-pass probe. -/
theorem seqGetDulpFile_none_facts {t : Tables} {size : Nat} {hcq : Option String}
    (h : seqGetDulpFile t size none hcq = none) :
    ∀ z ∈ t.files, z.size = size → sqlEqStr z.hash_complete hcq = true → False := by
  unfold seqGetDulpFile at h
  intro z hz hsz hhc
  have := List.find?_eq_none.mp h z hz
  simp only [Bool.and_eq_true, Bool.or_eq_true, beq_iff_eq,
    sqlEqStr_none_right, Bool.false_eq_true, false_or, not_and] at this
  exact absurd hhc (by simpa using this hsz)

/-- `pairLawB` reads only the files table. -/
theorem pairLawB_files_eq {t1 t2 : Tables} (h : t1.files = t2.files) :
    pairLawB t1 = pairLawB t2 := by
  unfold pairLawB
  rw [h]

/-- The pair law survives updating a single row when every other row that
matches the updated row's new (size, complete hash) already carries the
updated row's new duplicate_id (and it is non-NULL). -/
theorem pairLaw_single_update {t : Tables} {id : Nat} {f : FileRow}
    (hnd : nodupB (t.files.map (·.id)) = true)
    (hfind : t.files.find? (fun x => x.id == id) = some f)
    (hlaw : pairLawB t = true) {hv hcv : Option String} {dupv : Option Nat}
    (hmatch : ∀ y ∈ t.files, y.id ≠ id → y.size = f.size →
      sqlEqStr (coalesce hcv f.hash_complete) y.hash_complete = true →
      y.duplicate_id = coalesce dupv f.duplicate_id ∧
        coalesce dupv f.duplicate_id ≠ none) :
    pairLawB (sqlUpdateFile t id hv hcv dupv) = true := by
  rw [pairLawB_iff] at hlaw ⊢
  show ∀ a ∈ t.files.map _, _
  intro a ha b hb hne hsz hhc
  obtain ⟨x, hx, rfl⟩ := List.mem_map.mp ha
  obtain ⟨y, hy, rfl⟩ := List.mem_map.mp hb
  by_cases hx1 : x.id = id <;> by_cases hy1 : y.id = id
  · have hxf : x = f := mem_id_eq_row hnd hfind hx hx1
    have hyf : y = f := mem_id_eq_row hnd hfind hy hy1
    subst hxf
    subst hyf
    exact absurd rfl hne
  · have hxf : x = f := mem_id_eq_row hnd hfind hx hx1
    subst hxf
    rw [if_pos hx1, if_neg hy1] at hne hsz hhc ⊢
    obtain ⟨hd, hnn⟩ := hmatch y hy hy1 hsz.symm hhc
    exact ⟨hd.symm, hnn⟩
  · have hyf : y = f := mem_id_eq_row hnd hfind hy hy1
    subst hyf
    rw [if_neg hx1, if_pos hy1] at hne hsz hhc ⊢
    rw [sqlEqStr_symm] at hhc
    obtain ⟨hd, hnn⟩ := hmatch x hx hx1 hsz hhc
    refine ⟨hd, ?_⟩
    rw [hd]
    exact hnn
  · rw [if_neg hx1, if_neg hy1] at hne hsz hhc ⊢
    exact hlaw x hx y hy hne hsz hhc

theorem nodupB_iff {l : List Nat} : nodupB l = true ↔ l.Nodup := by
  induction l with
  | nil => simp [nodupB]
  | cons a as ih =>
    rw [nodupB_cons, List.nodup_cons, ih]
    simp [List.contains]

theorem nodupB_append_singleton {l : List Nat} {n : Nat}
    (hl : nodupB l = true) (hn : ∀ x ∈ l, x ≠ n) : nodupB (l ++ [n]) = true := by
  rw [nodupB_iff] at hl ⊢
  rw [List.nodup_append]
  refine ⟨hl, List.nodup_singleton n, ?_⟩
  intro x hx
  simp only [List.mem_singleton]
  exact hn x hx

theorem dupRefOk_mono {n m : Nat} (h : n ≤ m) {r : Option Nat}
    (hr : dupRefOk n r = true) : dupRefOk m r = true := by
  cases r with
  | none => rfl
  | some g =>
    simp only [dupRefOk, Bool.and_eq_true, decide_eq_true_eq] at hr ⊢
    omega

theorem files_ids_map {l : List FileRow} {g : FileRow → FileRow}
    (hg : ∀ x, (g x).id = x.id) : (l.map g).map (·.id) = l.map (·.id) := by
  rw [List.map_map]
  exact List.map_congr_left fun x _ => hg x

theorem sqlUpdateFile_files_ids (t : Tables) (id : Nat) (hv hcv : Option String)
    (dupv : Option Nat) :
    (sqlUpdateFile t id hv hcv dupv).files.map (·.id) = t.files.map (·.id) := by
  show (t.files.map fun f =>
      if f.id = id then
        { f with hash := coalesce hv f.hash,
                 hash_complete := coalesce hcv f.hash_complete,
                 duplicate_id := coalesce dupv f.duplicate_id }
      else f).map (·.id) = t.files.map (·.id)
  rw [List.map_map]
  refine List.map_congr_left ?_
  intro x hx
  by_cases h : x.id = id <;> simp [h, Function.comp]

theorem sqlInsertDup_dups_ids (t : Tables) (ty : String) :
    (sqlInsertDuplicate t ty).1.duplicates.map (·.id) =
      t.duplicates.map (·.id) ++ [t.nextDupId] := by
  show (t.duplicates ++ [(⟨t.nextDupId, ty⟩ : DupRow)]).map (·.id) =
    t.duplicates.map (·.id) ++ [t.nextDupId]
  rw [List.map_append]
  rfl

theorem find?_sqlUpdateFile (t : Tables) (j : Nat) (hv hcv : Option String)
    (dupv : Option Nat) (k : Nat) :
    (sqlUpdateFile t j hv hcv dupv).files.find? (fun x => x.id == k) =
      (t.files.find? fun x => x.id == k).map fun f =>
        if f.id = j then
          { f with hash := coalesce hv f.hash,
                   hash_complete := coalesce hcv f.hash_complete,
                   duplicate_id := coalesce dupv f.duplicate_id }
        else f := by
  show (t.files.map fun f =>
      if f.id = j then
        { f with hash := coalesce hv f.hash,
                 hash_complete := coalesce hcv f.hash_complete,
                 duplicate_id := coalesce dupv f.duplicate_id }
      else f).find? (fun x => x.id == k) = _
  refine find?_key_map _ _ (fun x : FileRow => x.id) ?_ k
  intro x
  by_cases hx : x.id = j <;> simp [hx]

/-- `sqlUpdateFile` preserves well-formedness when the written
duplicate_id reference is itself well formed. -/
theorem WFb_sqlUpdateFile {t : Tables} (hwf : WFb t = true) (id : Nat)
    (hv hcv : Option String) {dupv : Option Nat}
    (hdup : dupRefOk t.nextDupId dupv = true) :
    WFb (sqlUpdateFile t id hv hcv dupv) = true := by
  obtain ⟨h1, h2, h3, h4, h5, h6, h7⟩ := WFb_parts hwf
  apply WFb_intro
  · rw [sqlUpdateFile_files_ids]
    exact h1
  · exact h2
  · exact h3
  · intro y hy
    obtain ⟨x, hx, rfl⟩ := List.mem_map.mp hy
    by_cases hxid : x.id = id
    · rw [if_pos hxid]
      refine ⟨(h4 x hx).1, ?_⟩
      cases dupv with
      | none => exact (h4 x hx).2
      | some v => exact hdup
    · rw [if_neg hxid]
      exact h4 x hx
  · exact h5
  · exact h6
  · exact h7

/-- `sqlInsertDuplicate` preserves well-formedness. -/
theorem WFb_sqlInsertDup {t : Tables} (hwf : WFb t = true) (ty : String) :
    WFb (sqlInsertDuplicate t ty).1 = true := by
  obtain ⟨h1, h2, h3, h4, h5, h6, h7⟩ := WFb_parts hwf
  apply WFb_intro
  · exact h1
  · exact h2
  · rw [sqlInsertDup_dups_ids]
    refine nodupB_append_singleton h3 ?_
    intro x hx
    obtain ⟨D, hD, rfl⟩ := List.mem_map.mp hx
    have := (h6 D hD).2
    omega
  · intro f hf
    exact ⟨(h4 f hf).1, dupRefOk_mono (Nat.le_succ _) (h4 f hf).2⟩
  · intro d hd
    exact ⟨(h5 d hd).1, dupRefOk_mono (Nat.le_succ _) (h5 d hd).2⟩
  · intro D hD
    rcases List.mem_append.mp hD with hD' | hD'
    · refine ⟨(h6 D hD').1, ?_⟩
      show D.id < t.nextDupId + 1
      have := (h6 D hD').2
      omega
    · rw [List.mem_singleton.mp hD']
      exact ⟨h7, Nat.lt_succ_self _⟩
  · exact Nat.le_trans h7 (Nat.le_succ _)

/-- Every successful `updateFileHash` run preserves well-formedness. -/
theorem WFb_preserved_updateFileHash {t : Tables} {id : Nat} {p : String}
    {hc : Option String} {t' : Tables} (hwf : WFb t = true)
    (hok : updateFileHash t id p hc = .ok t') : WFb t' = true := by
  obtain ⟨h1, h2, h3, h4, h5, h6, h7⟩ := WFb_parts hwf
  rcases updateFileHash_ok_cases hok with ⟨-, rfl⟩ | ⟨f, _, hcases⟩
  · exact hwf
  rcases hcases with ⟨-, -, rfl⟩ | ⟨-, hrest⟩
  · exact WFb_sqlUpdateFile hwf id _ _ rfl
  rcases hrest with ⟨-, rfl⟩ | ⟨r, hprobe, -, rfl⟩ | ⟨r, hprobe, -, rfl⟩
  · exact WFb_sqlUpdateFile hwf id _ _ rfl
  · have hrmem : r ∈ t.files := List.mem_of_find?_eq_some hprobe
    exact WFb_sqlUpdateFile hwf id _ _ (h4 r hrmem).2
  · have hNok : dupRefOk (t.nextDupId + 1) (some t.nextDupId) = true := by
      simp only [dupRefOk, Bool.and_eq_true, decide_eq_true_eq]
      omega
    exact WFb_sqlUpdateFile
      (WFb_sqlUpdateFile (WFb_sqlInsertDup hwf "file") r.id _ _ hNok) id _ _ hNok

/-- Every successful `updateFileHash` run preserves the pair law. -/
theorem pairLaw_preserved_updateFileHash {t : Tables} {id : Nat} {p : String}
    {hc : Option String} {t' : Tables} (hwf : WFb t = true)
    (hlaw : pairLawB t = true) (hok : updateFileHash t id p hc = .ok t') :
    pairLawB t' = true := by
  obtain ⟨hnd, -, -, hff, -⟩ := WFb_parts hwf
  have hlaw' := pairLawB_iff.mp hlaw
  rcases updateFileHash_ok_cases hok with ⟨-, rfl⟩ | ⟨f, hfind, hcases⟩
  · exact hlaw
  have hfmem : f ∈ t.files := List.mem_of_find?_eq_some hfind
  have hfid : f.id = id := find?_id_eq hfind
  rcases hcases with ⟨-, -, rfl⟩ | ⟨htr, hrest⟩
  · -- first pass: the updated row keeps size, complete hash, duplicate_id
    refine pairLaw_single_update hnd hfind hlaw ?_
    intro y hy hyne hysz hyhc
    have hpair := hlaw' y hy f hfmem (fun hh => hyne (hh.trans hfid))
      hysz (by rw [sqlEqStr_symm]; exact hyhc)
    refine ⟨hpair.1, ?_⟩
    rw [← hpair.1]
    exact hpair.2
  obtain ⟨c, hceq⟩ : ∃ c, (if f.size < 1024 then some p else hc) = some c := by
    cases hq : (if f.size < 1024 then some p else hc) with
    | none => rw [hq] at htr; cases htr
    | some c => exact ⟨c, rfl⟩
  rw [hceq] at hrest
  rcases hrest with ⟨hprobe, rfl⟩ | ⟨r, hprobe, hcond, rfl⟩ | ⟨r, hprobe, hcond, rfl⟩
  · -- probe empty: no other row can match the new (size, c)
    refine pairLaw_single_update hnd hfind hlaw ?_
    intro y hy hyne hysz hyhc
    exact absurd (seqGetDulpFile_none_facts hprobe y hy hysz
      (by rw [sqlEqStr_symm]; exact hyhc)) (fun hh => hh)
  · -- probe row already grouped: every matching row shares its group
    obtain ⟨hrmem, hrsz, hrhc, c2, hc2⟩ := seqGetDulpFile_some_facts hprobe
    cases hc2
    obtain ⟨gg, hgg⟩ : ∃ gg, r.duplicate_id = some gg := by
      have htid : pyTruthyNat (some r.id) = true := by
        have := (hff r hrmem).1
        simp [pyTruthyNat]
        omega
      rw [htid, Bool.true_and, Bool.not_eq_false'] at hcond
      cases hrd : r.duplicate_id with
      | none => rw [hrd] at hcond; cases hcond
      | some gg => exact ⟨gg, rfl⟩
    refine pairLaw_single_update hnd hfind hlaw ?_
    intro y hy hyne hysz hyhc
    have hyc : y.hash_complete = some c := by
      rw [sqlEqStr_symm] at hyhc
      exact sqlEqStr_some_iff.mp hyhc
    rw [hgg]
    refine ⟨?_, by simp [coalesce]⟩
    by_cases hyr : y.id = r.id
    · have : y = r := mem_id_eq_row hnd (getFileRow_of_mem hnd hrmem) hy hyr
      rw [this, hgg]
      rfl
    · have hpair := hlaw' y hy r hrmem hyr (hysz.trans hrsz.symm)
        (by rw [hyc, hrhc]; exact sqlEqStr_refl c)
      rw [hpair.1, hgg]
      rfl
  · -- fresh group: attach both the probe row and the updated row to it
    obtain ⟨hrmem, hrsz, hrhc, c2, hc2⟩ := seqGetDulpFile_some_facts hprobe
    cases hc2
    have hrdn : r.duplicate_id = none := by
      rw [Bool.and_eq_true, Bool.not_eq_true'] at hcond
      exact dupRef_falsy_eq_none (hff r hrmem).2 hcond.2
    have hndI : nodupB ((sqlInsertDuplicate t "file").1.files.map (·.id)) = true := hnd
    have hfindI : (sqlInsertDuplicate t "file").1.files.find?
        (fun x => x.id == r.id) = some r := getFileRow_of_mem hnd hrmem
    have hlawI : pairLawB (sqlInsertDuplicate t "file").1 = true := by
      rw [pairLawB_files_eq (rfl : (sqlInsertDuplicate t "file").1.files = t.files)]
      exact hlaw
    have hlawT2 : pairLawB (sqlUpdateFile (sqlInsertDuplicate t "file").1 r.id
        none none (some t.nextDupId)) = true := by
      refine pairLaw_single_update hndI hfindI hlawI ?_
      intro y hy hyne hysz hyhc
      have hyc : y.hash_complete = some c := by
        rw [sqlEqStr_symm, hrhc] at hyhc
        exact sqlEqStr_some_iff.mp hyhc
      have hpair := hlaw' y hy r hrmem hyne hysz
        (by rw [hyc, hrhc]; exact sqlEqStr_refl c)
      rw [hrdn] at hpair
      exact absurd hpair.1 hpair.2
    have hndT2 : nodupB ((sqlUpdateFile (sqlInsertDuplicate t "file").1 r.id
        none none (some t.nextDupId)).files.map (·.id)) = true := by
      rw [sqlUpdateFile_files_ids]
      exact hndI
    have hfindT2 : (sqlUpdateFile (sqlInsertDuplicate t "file").1 r.id
        none none (some t.nextDupId)).files.find? (fun x => x.id == id) =
        some (if f.id = r.id then
          { f with duplicate_id :=
              coalesce (some t.nextDupId) f.duplicate_id } else f) := by
      rw [find?_sqlUpdateFile]
      rw [show (sqlInsertDuplicate t "file").1.files.find? (fun x => x.id == id) =
        some f from hfind]
      simp only [Option.map_some']
      by_cases hfr : f.id = r.id
      · rw [if_pos hfr, if_pos hfr]
        simp [coalesce]
      · rw [if_neg hfr, if_neg hfr]
    refine pairLaw_single_update hndT2 hfindT2 hlawT2 ?_
    intro y hy hyne hysz hyhc
    refine ⟨?_, by simp [coalesce]⟩
    obtain ⟨z, hz, rfl⟩ := List.mem_map.mp hy
    by_cases hzr : z.id = r.id
    · rw [if_pos hzr]
      simp [coalesce]
    · rw [if_neg hzr] at hyne hysz hyhc ⊢
      have hzc : z.hash_complete = some c := by
        have h1 : sqlEqStr z.hash_complete (some c) = true := by
          rw [sqlEqStr_symm]
          exact hyhc
        exact sqlEqStr_some_iff.mp h1
      have hzsz : z.size = r.size := by
        rw [hrsz]
        have hfs : (if f.id = r.id then
            { f with duplicate_id :=
                coalesce (some t.nextDupId) f.duplicate_id } else f).size = f.size := by
          by_cases hfr : f.id = r.id
          · rw [if_pos hfr]
          · rw [if_neg hfr]
        rw [← hfs]
        exact hysz
      have hpair := hlaw' z hz r hrmem hzr hzsz
        (by rw [hzc, hrhc]; exact sqlEqStr_refl c)
      rw [hrdn] at hpair
      exact absurd hpair.1 hpair.2

/-- One top-level hash-phase call of `Scanner.hash`: a single
`Database.updateFileHash(id, hash, hash_complete)` invocation. -/
inductive FileOp where
  | update (id : Nat) (hash : String) (hash_complete : Option String)
deriving Repr, DecidableEq

/-- Run a sequence of `updateFileHash` calls; a raised
`PartialHashCollision` leaves the store unchanged (the transaction rolls
back and the scanner handles the exception outside the store). -/
def runFileOps (t : Tables) : List FileOp → Tables
  | [] => t
  | .update id h hc :: rest =>
    match updateFileHash t id h hc with
    | .ok t' => runFileOps t' rest
    | .error _ => runFileOps t rest

/-- Claim C7 (amended: the sequence consists of `updateFileHash` calls
only — a bare `updateFileCompleteHash` repair can break the law, see the
counterexample).  After any sequence of `updateFileHash` operations run
from a well-formed state satisfying the pair law, every two file rows A
and B sharing the same size and the same non-NULL hash_complete have
A.duplicate_id = B.duplicate_id ≠ NULL, and the state stays well
formed. -/
theorem claim7_pair_law :
    ∀ (ops : List FileOp) (t : Tables), WFb t = true → pairLawB t = true →
      pairLawB (runFileOps t ops) = true ∧ WFb (runFileOps t ops) = true := by
  intro ops
  induction ops with
  | nil => exact fun t hwf hlaw => ⟨hlaw, hwf⟩
  | cons op rest ih =>
    intro t hwf hlaw
    cases op with
    | update id h hc =>
      show pairLawB (match updateFileHash t id h hc with
        | .ok t' => runFileOps t' rest
        | .error _ => runFileOps t rest) = true ∧
        WFb (match updateFileHash t id h hc with
        | .ok t' => runFileOps t' rest
        | .error _ => runFileOps t rest) = true
      cases hok : updateFileHash t id h hc with
      | ok t' =>
        exact ih t' (WFb_preserved_updateFileHash hwf hok)
          (pairLaw_preserved_updateFileHash hwf hlaw hok)
      | error e =>
        exact ih t hwf hlaw

def c7w0 : Tables :=
  { files :=
      [ { id := 1, path := "/a/x", size := 10, dir_id := 1,
          hash := none, hash_complete := none, duplicate_id := none },
        { id := 2, path := "/a/y", size := 10, dir_id := 1,
          hash := none, hash_complete := none, duplicate_id := none } ],
    dirs := [ { id := 1, path := "/a", parent_id := none,
                hash := none, duplicate_id := none } ],
    duplicates := [],
    nextDupId := 1 }

/-- Witness for C7: hashing two equal small files in sequence leaves the
pair law and well-formedness holding. -/
theorem claim7_pair_law_witness :
    pairLawB (runFileOps c7w0
      [.update 1 "H" none, .update 2 "H" none]) = true ∧
    WFb (runFileOps c7w0
      [.update 1 "H" none, .update 2 "H" none]) = true :=
  claim7_pair_law [.update 1 "H" none, .update 2 "H" none] c7w0
    (by decide) (by decide)

/-! ## Claim C1: the reference-counting law -/

theorem countP_map_congr {α : Type} {l : List α} {g : α → α} {q : α → Bool}
    (hg : ∀ x ∈ l, q (g x) = q x) : (l.map g).countP q = l.countP q := by
  rw [List.countP_map]
  refine List.countP_congr ?_
  intro x hx
  rw [Function.comp_apply, hg x hx]

theorem countP_le_map {α : Type} {l : List α} {g : α → α} {q : α → Bool}
    (hg : ∀ x ∈ l, q x = true → q (g x) = true) :
    l.countP q ≤ (l.map g).countP q := by
  rw [List.countP_map]
  refine List.countP_mono_left ?_
  intro x hx hqx
  exact hg x hx hqx

theorem refCountLawB_iff {t : Tables} : refCountLawB t = true ↔
    ∀ D ∈ t.duplicates,
      (D.type = "file" →
        2 ≤ t.files.countP fun f => f.duplicate_id == some D.id) ∧
      (D.type = "dir" →
        2 ≤ t.dirs.countP fun d => d.duplicate_id == some D.id) := by
  unfold refCountLawB
  rw [List.all_eq_true]
  constructor
  · intro h D hD
    have hb := h D hD
    rw [Bool.and_eq_true, Bool.or_eq_true, Bool.or_eq_true] at hb
    constructor
    · intro hty
      rcases hb.1 with hb' | hb'
      · rw [Bool.not_eq_true', beq_eq_false_iff_ne] at hb'
        exact absurd hty hb'
      · rw [List.countP_eq_length_filter]
        exact of_decide_eq_true hb'
    · intro hty
      rcases hb.2 with hb' | hb'
      · rw [Bool.not_eq_true', beq_eq_false_iff_ne] at hb'
        exact absurd hty hb'
      · rw [List.countP_eq_length_filter]
        exact of_decide_eq_true hb'
  · intro h D hD
    rw [Bool.and_eq_true, Bool.or_eq_true, Bool.or_eq_true]
    refine ⟨?_, ?_⟩
    · by_cases hty : D.type = "file"
      · refine Or.inr (decide_eq_true ?_)
        rw [← List.countP_eq_length_filter]
        exact (h D hD).1 hty
      · exact Or.inl (by rw [Bool.not_eq_true', beq_eq_false_iff_ne]; exact hty)
    · by_cases hty : D.type = "dir"
      · refine Or.inr (decide_eq_true ?_)
        rw [← List.countP_eq_length_filter]
        exact (h D hD).2 hty
      · exact Or.inl (by rw [Bool.not_eq_true', beq_eq_false_iff_ne]; exact hty)

theorem sqlUpdateFile_files (t : Tables) (id : Nat) (hv hcv : Option String)
    (dupv : Option Nat) :
    (sqlUpdateFile t id hv hcv dupv).files = t.files.map fun f =>
      if f.id = id then
        { f with hash := coalesce hv f.hash,
                 hash_complete := coalesce hcv f.hash_complete,
                 duplicate_id := coalesce dupv f.duplicate_id }
      else f := rfl

theorem mem_sqlGetDirsFromDupID {t : Tables} {g : Nat}
    (hndd : nodupB (t.dirs.map (·.id)) = true) {x : DirRow} (hx : x ∈ t.dirs) :
    x.id ∈ sqlGetDirsFromDupID t g ↔ x.duplicate_id = some g := by
  unfold sqlGetDirsFromDupID
  constructor
  · intro hmem
    obtain ⟨y, hy, hyx⟩ := List.mem_map.mp hmem
    have hy2 := List.mem_filter.mp hy
    have hyeq : y = x :=
      mem_id_eq_dirRow hndd (getDirRow_of_mem hndd hx) hy2.1 hyx
    have := hy2.2
    rw [hyeq] at this
    simpa using this
  · intro hdup
    refine List.mem_map.mpr ⟨x, List.mem_filter.mpr ⟨hx, ?_⟩, rfl⟩
    simp [hdup]

theorem sqlFindDupDirFromHash_some {t : Tables} {hsh : String}
    {e : Nat × Option Nat} (h : sqlFindDupDirFromHash t hsh = some e) :
    ∃ erow ∈ t.dirs, erow.id = e.1 ∧ erow.duplicate_id = e.2 ∧
      erow.hash = some hsh := by
  unfold sqlFindDupDirFromHash at h
  cases hf : t.dirs.find? (fun d => d.hash == some hsh) with
  | none => rw [hf] at h; cases h
  | some erow =>
    rw [hf] at h
    simp only [Option.map_some', Option.some.injEq] at h
    refine ⟨erow, List.mem_of_find?_eq_some hf, ?_, ?_, ?_⟩
    · rw [← h]
    · rw [← h]
    · simpa using List.find?_some hf

theorem sqlUpdateDir_dirs_ids (t : Tables) (id : Nat) (hv : Option String)
    (dupv : Option Nat) :
    (sqlUpdateDir t id hv dupv).dirs.map (·.id) = t.dirs.map (·.id) := by
  show (t.dirs.map fun d =>
      if d.id = id then
        { d with hash := coalesce hv d.hash,
                 duplicate_id := coalesce dupv d.duplicate_id }
      else d).map (·.id) = t.dirs.map (·.id)
  rw [List.map_map]
  refine List.map_congr_left ?_
  intro x hx
  by_cases h : x.id = id <;> simp [h, Function.comp]

theorem sqlDirRemoveDupID_dirs_ids (t : Tables) (ids : List Nat) :
    (sqlDirRemoveDupID t ids).dirs.map (·.id) = t.dirs.map (·.id) := by
  show (t.dirs.map fun d =>
      if d.id ∈ ids then { d with duplicate_id := none } else d).map (·.id) =
    t.dirs.map (·.id)
  rw [List.map_map]
  refine List.map_congr_left ?_
  intro x hx
  by_cases h : x.id ∈ ids <;> simp [h, Function.comp]

/-- `sqlUpdateDir` preserves well-formedness when the written
duplicate_id reference is itself well formed. -/
theorem WFb_sqlUpdateDir {t : Tables} (hwf : WFb t = true) (id : Nat)
    (hv : Option String) {dupv : Option Nat}
    (hdup : dupRefOk t.nextDupId dupv = true) :
    WFb (sqlUpdateDir t id hv dupv) = true := by
  obtain ⟨h1, h2, h3, h4, h5, h6, h7⟩ := WFb_parts hwf
  apply WFb_intro
  · exact h1
  · rw [sqlUpdateDir_dirs_ids]
    exact h2
  · exact h3
  · exact h4
  · intro y hy
    obtain ⟨x, hx, rfl⟩ := List.mem_map.mp hy
    by_cases hxid : x.id = id
    · rw [if_pos hxid]
      refine ⟨(h5 x hx).1, ?_⟩
      cases dupv with
      | none => exact (h5 x hx).2
      | some v => exact hdup
    · rw [if_neg hxid]
      exact h5 x hx
  · exact h6
  · exact h7

/-- `sqlDirRemoveDupID` preserves well-formedness. -/
theorem WFb_sqlDirRemoveDupID {t : Tables} (hwf : WFb t = true)
    (ids : List Nat) : WFb (sqlDirRemoveDupID t ids) = true := by
  obtain ⟨h1, h2, h3, h4, h5, h6, h7⟩ := WFb_parts hwf
  apply WFb_intro
  · exact h1
  · rw [sqlDirRemoveDupID_dirs_ids]
    exact h2
  · exact h3
  · exact h4
  · intro y hy
    obtain ⟨x, hx, rfl⟩ := List.mem_map.mp hy
    by_cases hxid : x.id ∈ ids
    · rw [if_pos hxid]
      exact ⟨(h5 x hx).1, rfl⟩
    · rw [if_neg hxid]
      exact h5 x hx
  · exact h6
  · exact h7

/-- `sqlRemoveDuplicate` preserves well-formedness. -/
theorem WFb_sqlRemoveDuplicate {t : Tables} (hwf : WFb t = true) (g : Nat) :
    WFb (sqlRemoveDuplicate t g) = true := by
  obtain ⟨h1, h2, h3, h4, h5, h6, h7⟩ := WFb_parts hwf
  apply WFb_intro
  · exact h1
  · exact h2
  · show nodupB ((t.duplicates.filter fun d => d.id != g).map (·.id)) = true
    rw [nodupB_iff] at h3 ⊢
    exact ((List.filter_sublist t.duplicates).map (·.id)).nodup h3
  · exact h4
  · exact h5
  · intro D hD
    have hD2 := List.mem_filter.mp
      (show D ∈ t.duplicates.filter (fun d => d.id != g) from hD)
    exact h6 D hD2.1
  · exact h7

/-- Writing a hash onto a dir whose row has no duplicate reference, with
any duplicate_id parameter, preserves the reference-count law: the write
can only add the row to a group, never remove a member. -/
theorem refCountLaw_sqlUpdateDir_attach {t : Tables} {id : Nat}
    (hv : Option String) (dupv : Option Nat) (hlaw : refCountLawB t = true)
    (hid : ∀ x ∈ t.dirs, x.id = id → x.duplicate_id = none) :
    refCountLawB (sqlUpdateDir t id hv dupv) = true := by
  rw [refCountLawB_iff] at hlaw ⊢
  intro D hD
  refine ⟨fun hty => (hlaw D hD).1 hty, fun hty => ?_⟩
  show 2 ≤ ((t.dirs.map fun x =>
      if x.id = id then
        { x with hash := coalesce hv x.hash,
                 duplicate_id := coalesce dupv x.duplicate_id }
      else x).countP fun x => x.duplicate_id == some D.id)
  refine le_trans ((hlaw D hD).2 hty) (countP_le_map ?_)
  intro x hx hpx
  by_cases hxid : x.id = id
  · rw [hid x hx hxid] at hpx
    simp at hpx
  · rw [if_neg hxid]
    exact hpx

/-- Collapsing a 2-member dir group (clearing all members and deleting
the group row) preserves the reference-count law. -/
theorem refCountLaw_collapse {t : Tables} {g : Nat}
    (hndd : nodupB (t.dirs.map (·.id)) = true)
    (hlaw : refCountLawB t = true) :
    refCountLawB (sqlRemoveDuplicate
      (sqlDirRemoveDupID t (sqlGetDirsFromDupID t g)) g) = true := by
  rw [refCountLawB_iff] at hlaw ⊢
  intro D hD
  have hD3 := List.mem_filter.mp
    (show D ∈ t.duplicates.filter (fun x => x.id != g) from hD)
  have hDg : D.id ≠ g := by simpa using hD3.2
  refine ⟨fun hty => (hlaw D hD3.1).1 hty, fun hty => ?_⟩
  show 2 ≤ ((t.dirs.map fun x =>
      if x.id ∈ sqlGetDirsFromDupID t g then { x with duplicate_id := none }
      else x).countP fun x => x.duplicate_id == some D.id)
  rw [countP_map_congr]
  · exact (hlaw D hD3.1).2 hty
  · intro x hx
    by_cases hmem : x.id ∈ sqlGetDirsFromDupID t g
    · have hg : x.duplicate_id = some g :=
        (mem_sqlGetDirsFromDupID hndd hx).mp hmem
      rw [if_pos hmem]
      show ((none : Option Nat) == some D.id) = (x.duplicate_id == some D.id)
      rw [hg]
      rw [show ((none : Option Nat) == some D.id) = false from rfl]
      symm
      rw [beq_eq_false_iff_ne]
      intro hh
      exact hDg (by simpa using hh.symm)
    · rw [if_neg hmem]

/-- Detaching one member from a dir group of three or more preserves the
reference-count law. -/
theorem refCountLaw_detach {t : Tables} {id g : Nat} {d : DirRow}
    (hndd : nodupB (t.dirs.map (·.id)) = true)
    (hfind : t.dirs.find? (fun x => x.id == id) = some d)
    (hdup : d.duplicate_id = some g)
    (hlen : ((sqlGetDirsFromDupID t g).length == 2) = false)
    (hlaw : refCountLawB t = true) :
    refCountLawB (sqlDirRemoveDupID t [id]) = true := by
  rw [refCountLawB_iff] at hlaw ⊢
  intro D hD
  refine ⟨fun hty => (hlaw D hD).1 hty, fun hty => ?_⟩
  have hcnt := (hlaw D hD).2 hty
  show 2 ≤ ((t.dirs.map fun x =>
      if x.id ∈ [id] then { x with duplicate_id := none } else x).countP
      fun x => x.duplicate_id == some D.id)
  rw [List.countP_map]
  by_cases hDg : D.id = g
  · subst hDg
    have hlen' : (sqlGetDirsFromDupID t D.id).length =
        t.dirs.countP fun x => x.duplicate_id == some D.id := by
      unfold sqlGetDirsFromDupID
      rw [List.length_map, ← List.countP_eq_length_filter]
    have hne2 : t.dirs.countP (fun x => x.duplicate_id == some D.id) ≠ 2 := by
      intro hh
      rw [hlen', hh] at hlen
      simp at hlen
    have hsplit := countP_split t.dirs (fun x => x.duplicate_id == some D.id)
      (fun x => x.id == id)
    have hone : t.dirs.countP (fun x =>
        (x.duplicate_id == some D.id) && (x.id == id)) ≤ 1 := by
      refine le_trans (List.countP_mono_left ?_)
        (countP_key_le_one (fun x : DirRow => x.id) hndd id)
      intro x hx hh
      exact ((Bool.and_eq_true _ _).mp hh).2
    have hmono : t.dirs.countP (fun x =>
        (x.duplicate_id == some D.id) && !(x.id == id)) ≤
        t.dirs.countP ((fun x => x.duplicate_id == some D.id) ∘ fun x =>
          if x.id ∈ [id] then { x with duplicate_id := none } else x) := by
      refine List.countP_mono_left ?_
      intro x hx hh
      rw [Bool.and_eq_true] at hh
      have hxid : ¬ x.id = id := by simpa using hh.2
      simpa [Function.comp, hxid] using hh.1
    omega
  · have hcong : t.dirs.countP (fun x => x.duplicate_id == some D.id) =
        t.dirs.countP ((fun x => x.duplicate_id == some D.id) ∘ fun x =>
          if x.id ∈ [id] then { x with duplicate_id := none } else x) := by
      refine List.countP_congr ?_
      intro x hx
      by_cases hxid : x.id = id
      · have hxd : x = d := mem_id_eq_dirRow hndd hfind hx hxid
        refine iff_of_false ?_ ?_
        · rw [hxd, hdup]
          simp only [beq_iff_eq, Option.some.injEq]
          exact fun hh => hDg hh.symm
        · simp [Function.comp, hxid]
      · simp [Function.comp, hxid]
    rw [← hcong]
    exact hcnt

/-- Creating a fresh "dir" duplicate group for a probe hit that has no
group yet, and attaching both the probe dir and the updated dir to it,
preserves the reference-count law. -/
theorem refCountLaw_create_dir {t : Tables} {id eid : Nat} (hsh : String)
    (hwf : WFb t = true) (hlaw : refCountLawB t = true)
    (hid : ∀ x ∈ t.dirs, x.id = id → x.duplicate_id = none)
    (he : ∃ erow ∈ t.dirs, erow.id = eid ∧ erow.duplicate_id = none)
    (hne : eid ≠ id) (hex : ∃ xrow ∈ t.dirs, xrow.id = id) :
    refCountLawB (sqlUpdateDir (sqlUpdateDir (sqlInsertDuplicate t "dir").1 eid
      none (some t.nextDupId)) id (some hsh) (some t.nextDupId)) = true := by
  obtain ⟨h1, h2, h3, h4, h5, h6, h7⟩ := WFb_parts hwf
  obtain ⟨erow, hemem, heid, hedup⟩ := he
  obtain ⟨xrow, hxmem, hxid⟩ := hex
  have hxdup : xrow.duplicate_id = none := hid xrow hxmem hxid
  rw [refCountLawB_iff] at hlaw ⊢
  intro D hD
  have hD2 : D ∈ t.duplicates ++ [(⟨t.nextDupId, "dir"⟩ : DupRow)] := hD
  rcases List.mem_append.mp hD2 with hDold | hDnew
  · have hDlt : D.id < t.nextDupId := (h6 D hDold).2
    refine ⟨fun hty => (hlaw D hDold).1 hty, fun hty => ?_⟩
    show 2 ≤ (((t.dirs.map fun x =>
        if x.id = eid then
          { x with hash := coalesce none x.hash,
                   duplicate_id := coalesce (some t.nextDupId) x.duplicate_id }
        else x).map fun x =>
        if x.id = id then
          { x with hash := coalesce (some hsh) x.hash,
                   duplicate_id := coalesce (some t.nextDupId) x.duplicate_id }
        else x).countP fun x => x.duplicate_id == some D.id)
    rw [List.map_map, countP_map_congr]
    · exact (hlaw D hDold).2 hty
    · intro x hx
      have hNe : t.nextDupId ≠ D.id := Nat.ne_of_gt hDlt
      by_cases hxe : x.id = eid
      · have hxer : x = erow :=
          mem_id_eq_dirRow h2 (getDirRow_of_mem h2 hemem) hx (hxe.trans heid.symm)
        simp [Function.comp, hxer, heid, hne, coalesce, hedup, hNe]
      · by_cases hxi : x.id = id
        · have hxd : x.duplicate_id = none := hid x hx hxi
          simp [Function.comp, hxe, hxi, Ne.symm hne, coalesce, hxd, hNe]
        · simp [Function.comp, hxe, hxi]
  · rw [List.mem_singleton] at hDnew
    subst hDnew
    refine ⟨fun hty => absurd hty (by simp), fun hty => ?_⟩
    show 2 ≤ (((t.dirs.map fun x =>
        if x.id = eid then
          { x with hash := coalesce none x.hash,
                   duplicate_id := coalesce (some t.nextDupId) x.duplicate_id }
        else x).map fun x =>
        if x.id = id then
          { x with hash := coalesce (some hsh) x.hash,
                   duplicate_id := coalesce (some t.nextDupId) x.duplicate_id }
        else x).countP fun x => x.duplicate_id == some t.nextDupId)
    rw [List.map_map]
    refine two_le_countP_of_mem _ (List.mem_map_of_mem _ hemem)
      (List.mem_map_of_mem _ hxmem) ?_ ?_ ?_
    · have hidc : ∀ y : DirRow, ((fun x =>
          if x.id = id then
            { x with hash := coalesce (some hsh) x.hash,
                     duplicate_id := coalesce (some t.nextDupId) x.duplicate_id }
          else x) ((fun x : DirRow =>
          if x.id = eid then
            { x with hash := coalesce none x.hash,
                     duplicate_id := coalesce (some t.nextDupId) x.duplicate_id }
          else x) y)).id = y.id := by
        intro y
        by_cases hy1 : y.id = eid <;> by_cases hy2 : y.id = id <;>
          simp [hy1, hy2, hne, Ne.symm hne]
      intro hh
      have hii := congrArg DirRow.id hh
      rw [Function.comp_apply, Function.comp_apply, hidc erow, hidc xrow] at hii
      rw [heid, hxid] at hii
      exact hne hii
    · simp [Function.comp, heid, hne, coalesce, hedup]
    · simp [Function.comp, hxid, Ne.symm hne, coalesce, hxdup]

/-- Case analysis on the probe/attach tail of `updateDirHash`, run on the
state `t1` left by the group-removal phase. -/
theorem updateDirHash_tail_cases {t1 : Tables} {id : Nat} {hsh : String}
    {t' : Tables}
    (h : (let found := sqlFindDupDirFromHash t1 hsh
          let dir_id : Option Nat := found.map (·.1)
          let dup_id : Option Nat := (found.map (·.2)).getD none
          let step :=
            if pyTruthyNat dir_id && !pyTruthyNat dup_id then
              let ins := sqlInsertDuplicate t1 "dir"
              (sqlUpdateDir ins.1 (dir_id.getD 0) none (some ins.2), some ins.2)
            else (t1, dup_id)
          sqlUpdateDir step.1 id (some hsh) step.2) = t') :
    (sqlFindDupDirFromHash t1 hsh = none ∧
      t' = sqlUpdateDir t1 id (some hsh) none) ∨
    (∃ e, sqlFindDupDirFromHash t1 hsh = some e ∧
      (pyTruthyNat (some e.1) && !pyTruthyNat e.2) = false ∧
      t' = sqlUpdateDir t1 id (some hsh) e.2) ∨
    (∃ e, sqlFindDupDirFromHash t1 hsh = some e ∧
      (pyTruthyNat (some e.1) && !pyTruthyNat e.2) = true ∧
      t' = sqlUpdateDir (sqlUpdateDir (sqlInsertDuplicate t1 "dir").1 e.1
        none (some t1.nextDupId)) id (some hsh) (some t1.nextDupId)) := by
  cases hfound : sqlFindDupDirFromHash t1 hsh with
  | none =>
    rw [hfound] at h
    simp only [Option.map_none', Option.getD_none, pyTruthyNat, Bool.false_and,
      Bool.false_eq_true, if_false] at h
    exact Or.inl ⟨rfl, h.symm⟩
  | some e =>
    rw [hfound] at h
    simp only [Option.map_some', Option.getD_some] at h
    by_cases hcond : (pyTruthyNat (some e.1) && !pyTruthyNat e.2) = true
    · rw [if_pos hcond] at h
      exact Or.inr (Or.inr ⟨e, rfl, hcond, h.symm⟩)
    · rw [if_neg hcond] at h
      rw [Bool.not_eq_true] at hcond
      exact Or.inr (Or.inl ⟨e, rfl, hcond, h.symm⟩)

/-- The shapes a `updateDirHash` run can take: no-op (missing dir or
unchanged hash), or a removal phase producing `t1` followed by the
probe/attach tail. -/
theorem updateDirHash_cases {t : Tables} {id : Nat} {hsh : String}
    {t' : Tables} (h : updateDirHash t id hsh = t') :
    t' = t ∨
    ∃ d t1, t.dirs.find? (fun x => x.id == id) = some d ∧
      (d.hash == some hsh) = false ∧
      ((pyTruthyNat d.duplicate_id = false ∧ t1 = t) ∨
       (pyTruthyNat d.duplicate_id = true ∧
        ((((sqlGetDirsFromDupID t (d.duplicate_id.getD 0)).length == 2) = true ∧
          t1 = sqlRemoveDuplicate
            (sqlDirRemoveDupID t (sqlGetDirsFromDupID t (d.duplicate_id.getD 0)))
            (d.duplicate_id.getD 0)) ∨
         (((sqlGetDirsFromDupID t (d.duplicate_id.getD 0)).length == 2) = false ∧
          t1 = sqlDirRemoveDupID t [id])))) ∧
      ((sqlFindDupDirFromHash t1 hsh = none ∧
        t' = sqlUpdateDir t1 id (some hsh) none) ∨
       (∃ e, sqlFindDupDirFromHash t1 hsh = some e ∧
        (pyTruthyNat (some e.1) && !pyTruthyNat e.2) = false ∧
        t' = sqlUpdateDir t1 id (some hsh) e.2) ∨
       (∃ e, sqlFindDupDirFromHash t1 hsh = some e ∧
        (pyTruthyNat (some e.1) && !pyTruthyNat e.2) = true ∧
        t' = sqlUpdateDir (sqlUpdateDir (sqlInsertDuplicate t1 "dir").1 e.1
          none (some t1.nextDupId)) id (some hsh) (some t1.nextDupId))) := by
  unfold updateDirHash at h
  cases hfind : t.dirs.find? (fun x => x.id == id) with
  | none =>
    rw [hfind] at h
    exact Or.inl h.symm
  | some d =>
    rw [hfind] at h
    by_cases hsame : (d.hash == some hsh) = true
    · simp only [hsame, if_true] at h
      exact Or.inl h.symm
    · rw [Bool.not_eq_true] at hsame
      simp only [hsame, Bool.false_eq_true, if_false] at h
      by_cases hdup : pyTruthyNat d.duplicate_id = true
      · by_cases hlen :
            ((sqlGetDirsFromDupID t (d.duplicate_id.getD 0)).length == 2) = true
        · simp only [hdup, if_true, hlen] at h
          exact Or.inr ⟨d, _, rfl, hsame,
            Or.inr ⟨hdup, Or.inl ⟨hlen, rfl⟩⟩, updateDirHash_tail_cases h⟩
        · rw [Bool.not_eq_true] at hlen
          simp only [hdup, if_true, hlen, Bool.false_eq_true, if_false] at h
          exact Or.inr ⟨d, _, rfl, hsame,
            Or.inr ⟨hdup, Or.inr ⟨hlen, rfl⟩⟩, updateDirHash_tail_cases h⟩
      · rw [Bool.not_eq_true] at hdup
        simp only [hdup, Bool.false_eq_true, if_false] at h
        exact Or.inr ⟨d, _, rfl, hsame,
          Or.inl ⟨hdup, rfl⟩, updateDirHash_tail_cases h⟩

/-- `updateDirHash` preserves the reference-count law from any
well-formed state. -/
theorem refCountLaw_preserved_updateDirHash (t : Tables) (id : Nat)
    (hsh : String) (hwf : WFb t = true) (hlaw : refCountLawB t = true) :
    refCountLawB (updateDirHash t id hsh) = true := by
  obtain ⟨h1, h2, h3, h4, h5, h6, h7⟩ := WFb_parts hwf
  rcases updateDirHash_cases
      (rfl : updateDirHash t id hsh = updateDirHash t id hsh) with
    heq | ⟨d, t1, hfind, hne, ht1, htail⟩
  · rw [heq]
    exact hlaw
  · have hdmem : d ∈ t.dirs := List.mem_of_find?_eq_some hfind
    have hdid : d.id = id := by simpa using List.find?_some hfind
    have hdhash : d.hash ≠ some hsh := by
      intro hh
      rw [hh] at hne
      simp at hne
    have hbundle : WFb t1 = true ∧ refCountLawB t1 = true ∧
        (∀ x ∈ t1.dirs, x.id = id → x.duplicate_id = none) ∧
        (∀ x ∈ t1.dirs, x.id = id → x.hash ≠ some hsh) ∧
        (∃ xrow ∈ t1.dirs, xrow.id = id) := by
      rcases ht1 with ⟨hdupf, rfl⟩ | ⟨hdupt, ⟨hlen2, rfl⟩ | ⟨hlen2, rfl⟩⟩
      · have hdn : d.duplicate_id = none :=
          dupRef_falsy_eq_none (h5 d hdmem).2 hdupf
        refine ⟨hwf, hlaw, ?_, ?_, ⟨d, hdmem, hdid⟩⟩
        · intro x hx hxid
          rw [mem_id_eq_dirRow h2 hfind hx hxid]
          exact hdn
        · intro x hx hxid
          rw [mem_id_eq_dirRow h2 hfind hx hxid]
          exact hdhash
      · obtain ⟨g, hg⟩ : ∃ g, d.duplicate_id = some g := by
          cases hq : d.duplicate_id with
          | none => rw [hq] at hdupt; simp [pyTruthyNat] at hdupt
          | some g => exact ⟨g, rfl⟩
        have hgd : d.duplicate_id.getD 0 = g := by rw [hg]; rfl
        rw [hgd]
        have hidp : ∀ y : DirRow,
            ((if y.id ∈ sqlGetDirsFromDupID t g then
              { y with duplicate_id := none } else y)).id = y.id := by
          intro y
          by_cases hmem : y.id ∈ sqlGetDirsFromDupID t g <;> simp [hmem]
        refine ⟨WFb_sqlRemoveDuplicate (WFb_sqlDirRemoveDupID hwf _) _,
          refCountLaw_collapse h2 hlaw, ?_, ?_, ?_⟩
        · intro x hx hxid
          obtain ⟨y, hy, rfl⟩ := List.mem_map.mp hx
          have hyid : y.id = id := (hidp y) ▸ hxid
          have hyd : y = d := mem_id_eq_dirRow h2 hfind hy hyid
          have hmem : y.id ∈ sqlGetDirsFromDupID t g :=
            (mem_sqlGetDirsFromDupID h2 hy).mpr (hyd ▸ hg)
          rw [if_pos hmem]
        · intro x hx hxid
          obtain ⟨y, hy, rfl⟩ := List.mem_map.mp hx
          have hyid : y.id = id := (hidp y) ▸ hxid
          have hyd : y = d := mem_id_eq_dirRow h2 hfind hy hyid
          have hhy : (if y.id ∈ sqlGetDirsFromDupID t g then
              { y with duplicate_id := none } else y).hash = y.hash := by
            by_cases hmem : y.id ∈ sqlGetDirsFromDupID t g <;> simp [hmem]
          rw [hhy, hyd]
          exact hdhash
        · refine ⟨_, List.mem_map_of_mem _ hdmem, ?_⟩
          rw [hidp d]
          exact hdid
      · obtain ⟨g, hg⟩ : ∃ g, d.duplicate_id = some g := by
          cases hq : d.duplicate_id with
          | none => rw [hq] at hdupt; simp [pyTruthyNat] at hdupt
          | some g => exact ⟨g, rfl⟩
        have hgd : d.duplicate_id.getD 0 = g := by rw [hg]; rfl
        rw [hgd] at hlen2
        have hidp : ∀ y : DirRow,
            ((if y.id ∈ [id] then { y with duplicate_id := none } else y)).id =
              y.id := by
          intro y
          by_cases hmem : y.id = id <;> simp [hmem]
        refine ⟨WFb_sqlDirRemoveDupID hwf _,
          refCountLaw_detach h2 hfind hg hlen2 hlaw, ?_, ?_, ?_⟩
        · intro x hx hxid
          obtain ⟨y, hy, rfl⟩ := List.mem_map.mp hx
          have hyid : y.id = id := (hidp y) ▸ hxid
          have hmem : y.id ∈ [id] := by simp [hyid]
          rw [if_pos hmem]
        · intro x hx hxid
          obtain ⟨y, hy, rfl⟩ := List.mem_map.mp hx
          have hyid : y.id = id := (hidp y) ▸ hxid
          have hyd : y = d := mem_id_eq_dirRow h2 hfind hy hyid
          have hhy : (if y.id ∈ [id] then { y with duplicate_id := none }
              else y).hash = y.hash := by
            by_cases hmem : y.id = id <;> simp [hmem]
          rw [hhy, hyd]
          exact hdhash
        · refine ⟨_, List.mem_map_of_mem _ hdmem, ?_⟩
          rw [hidp d]
          exact hdid
    obtain ⟨hwf1, hlaw1, hid1, hhash1, hex1⟩ := hbundle
    rcases htail with ⟨hfoundn, heq⟩ | ⟨e, hfound, hcond, heq⟩ |
      ⟨e, hfound, hcond, heq⟩
    · rw [heq]
      exact refCountLaw_sqlUpdateDir_attach (some hsh) none hlaw1 hid1
    · rw [heq]
      exact refCountLaw_sqlUpdateDir_attach (some hsh) e.2 hlaw1 hid1
    · rw [heq]
      obtain ⟨erow, hemem, heid, hedup2, hehash⟩ :=
        sqlFindDupDirFromHash_some hfound
      have hedupn : erow.duplicate_id = none := by
        rw [Bool.and_eq_true, Bool.not_eq_true'] at hcond
        have hf2 : pyTruthyNat erow.duplicate_id = false := by
          rw [hedup2]
          exact hcond.2
        exact dupRef_falsy_eq_none
          (((WFb_parts hwf1).2.2.2.2.1 erow hemem).2) hf2
      have hne2 : e.1 ≠ id := by
        intro hh
        exact hhash1 erow hemem (heid.trans hh) hehash
      exact refCountLaw_create_dir hsh hwf1 hlaw1 hid1
        ⟨erow, hemem, heid, hedupn⟩ hne2 hex1

/-- `updateFileHash` on a file whose stored row has no complete hash and
no duplicate reference preserves the reference-count law. -/
theorem refCountLaw_preserved_updateFileHash {t : Tables} {id : Nat}
    {p : String} {hc : Option String} {t' : Tables} (hwf : WFb t = true)
    (hlaw : refCountLawB t = true)
    (hfresh : ∀ x ∈ t.files, x.id = id →
      x.hash_complete = none ∧ x.duplicate_id = none)
    (hok : updateFileHash t id p hc = .ok t') : refCountLawB t' = true := by
  obtain ⟨h1, h2, h3, h4, h5, h6, h7⟩ := WFb_parts hwf
  rcases updateFileHash_ok_cases hok with ⟨-, rfl⟩ | ⟨f, hfind, hcases⟩
  · exact hlaw
  have hfmem : f ∈ t.files := List.mem_of_find?_eq_some hfind
  have hfid : f.id = id := find?_id_eq hfind
  obtain ⟨hfc, hfd⟩ := hfresh f hfmem hfid
  rcases hcases with ⟨-, -, rfl⟩ | ⟨htr, hrest⟩
  · -- first-pass write: the duplicate_id column is untouched
    rw [refCountLawB_iff] at hlaw ⊢
    intro D hD
    refine ⟨fun hty => ?_, fun hty => (hlaw D hD).2 hty⟩
    rw [sqlUpdateFile_files, countP_map_congr]
    · exact (hlaw D hD).1 hty
    · intro x hx
      by_cases h : x.id = id <;> simp [h, coalesce]
  obtain ⟨c, hceq⟩ : ∃ c, (if f.size < 1024 then some p else hc) = some c := by
    cases hq : (if f.size < 1024 then some p else hc) with
    | none => rw [hq] at htr; cases htr
    | some c => exact ⟨c, rfl⟩
  rw [hceq] at hrest
  rcases hrest with ⟨hprobe, rfl⟩ | ⟨r, hprobe, hcond, rfl⟩ | ⟨r, hprobe, hcond, rfl⟩
  · -- probe empty: again no duplicate_id write
    rw [refCountLawB_iff] at hlaw ⊢
    intro D hD
    refine ⟨fun hty => ?_, fun hty => (hlaw D hD).2 hty⟩
    rw [sqlUpdateFile_files, countP_map_congr]
    · exact (hlaw D hD).1 hty
    · intro x hx
      by_cases h : x.id = id <;> simp [h, coalesce]
  · -- attach to the probe row's group: the updated row had no group
    rw [refCountLawB_iff] at hlaw ⊢
    intro D hD
    refine ⟨fun hty => ?_, fun hty => (hlaw D hD).2 hty⟩
    rw [sqlUpdateFile_files]
    refine le_trans ((hlaw D hD).1 hty) (countP_le_map ?_)
    intro x hx hpx
    by_cases hxid : x.id = id
    · have hxf : x = f := mem_id_eq_row h1 hfind hx hxid
      rw [hxf, hfd] at hpx
      simp at hpx
    · rw [if_neg hxid]
      exact hpx
  · -- fresh group: both the probe row and the updated row join it
    obtain ⟨hrmem, hrsz, hrhc, c2, hc2⟩ := seqGetDulpFile_some_facts hprobe
    cases hc2
    have hrdn : r.duplicate_id = none := by
      rw [Bool.and_eq_true, Bool.not_eq_true'] at hcond
      exact dupRef_falsy_eq_none (h4 r hrmem).2 hcond.2
    have hrne : r.id ≠ id := by
      intro hh
      have := mem_id_eq_row h1 hfind hrmem hh
      rw [this, hfc] at hrhc
      cases hrhc
    rw [refCountLawB_iff] at hlaw ⊢
    intro D hD
    have hD2 : D ∈ t.duplicates ++ [(⟨t.nextDupId, "file"⟩ : DupRow)] := hD
    rcases List.mem_append.mp hD2 with hDold | hDnew
    · have hDlt : D.id < t.nextDupId := (h6 D hDold).2
      have hNe : t.nextDupId ≠ D.id := Nat.ne_of_gt hDlt
      refine ⟨fun hty => ?_, fun hty => (hlaw D hDold).2 hty⟩
      show 2 ≤ (((t.files.map fun x =>
          if x.id = r.id then
            { x with hash := coalesce none x.hash,
                     hash_complete := coalesce none x.hash_complete,
                     duplicate_id := coalesce (some t.nextDupId) x.duplicate_id }
          else x).map fun x =>
          if x.id = id then
            { x with hash := coalesce (some p) x.hash,
                     hash_complete := coalesce (some c) x.hash_complete,
                     duplicate_id := coalesce (some t.nextDupId) x.duplicate_id }
          else x).countP fun x => x.duplicate_id == some D.id)
      rw [List.map_map, countP_map_congr]
      · exact (hlaw D hDold).1 hty
      · intro x hx
        by_cases hxr : x.id = r.id
        · have hxrr : x = r :=
            mem_id_eq_row h1 (getFileRow_of_mem h1 hrmem) hx hxr
          simp [Function.comp, hxrr, hrne, coalesce, hrdn, hNe]
        · by_cases hxi : x.id = id
          · have hxf : x = f := mem_id_eq_row h1 hfind hx hxi
            have hxd : x.duplicate_id = none := by rw [hxf]; exact hfd
            simp [Function.comp, hxi, Ne.symm hrne, coalesce, hxd, hNe]
          · simp [Function.comp, hxr, hxi]
    · rw [List.mem_singleton] at hDnew
      subst hDnew
      refine ⟨fun hty => ?_, fun hty => absurd hty (by simp)⟩
      show 2 ≤ (((t.files.map fun x =>
          if x.id = r.id then
            { x with hash := coalesce none x.hash,
                     hash_complete := coalesce none x.hash_complete,
                     duplicate_id := coalesce (some t.nextDupId) x.duplicate_id }
          else x).map fun x =>
          if x.id = id then
            { x with hash := coalesce (some p) x.hash,
                     hash_complete := coalesce (some c) x.hash_complete,
                     duplicate_id := coalesce (some t.nextDupId) x.duplicate_id }
          else x).countP fun x => x.duplicate_id == some t.nextDupId)
      rw [List.map_map]
      refine two_le_countP_of_mem _ (List.mem_map_of_mem _ hrmem)
        (List.mem_map_of_mem _ hfmem) ?_ ?_ ?_
      · have hidc : ∀ y : FileRow, ((fun x =>
            if x.id = id then
              { x with hash := coalesce (some p) x.hash,
                       hash_complete := coalesce (some c) x.hash_complete,
                       duplicate_id := coalesce (some t.nextDupId) x.duplicate_id }
            else x) ((fun x : FileRow =>
            if x.id = r.id then
              { x with hash := coalesce none x.hash,
                       hash_complete := coalesce none x.hash_complete,
                       duplicate_id := coalesce (some t.nextDupId) x.duplicate_id }
            else x) y)).id = y.id := by
          intro y
          by_cases hy1 : y.id = r.id <;> by_cases hy2 : y.id = id <;>
            simp [hy1, hy2, hrne, Ne.symm hrne]
        intro hh
        have hii := congrArg FileRow.id hh
        rw [Function.comp_apply, Function.comp_apply, hidc r, hidc f] at hii
        rw [hfid] at hii
        exact hrne hii
      · simp [Function.comp, hrne, coalesce, hrdn]
      · simp [Function.comp, hfid, Ne.symm hrne, coalesce, hfd]

/-- Claim C1 (amended): from a well-formed state in which every
duplicates row has at least 2 members, a single `updateDirHash` call
preserves the reference-count law, and a single successful
`updateFileHash` call preserves it provided the stored row of the
updated file has no complete hash and no duplicate reference yet (the
probe does not exclude the file itself, so re-hashing an already-hashed
file can create a singleton group — see the counterexample). -/
theorem claim1_ref_count_law :
    (∀ (t : Tables) (id : Nat) (hsh : String), WFb t = true →
      refCountLawB t = true →
      refCountLawB (updateDirHash t id hsh) = true) ∧
    (∀ (t : Tables) (id : Nat) (p : String) (hc : Option String)
      (t' : Tables), WFb t = true → refCountLawB t = true →
      (∀ x ∈ t.files, x.id = id →
        x.hash_complete = none ∧ x.duplicate_id = none) →
      updateFileHash t id p hc = .ok t' → refCountLawB t' = true) :=
  ⟨fun t id hsh hwf hlaw =>
    refCountLaw_preserved_updateDirHash t id hsh hwf hlaw,
   fun _ _ _ _ _ hwf hlaw hfresh hok =>
    refCountLaw_preserved_updateFileHash hwf hlaw hfresh hok⟩

def c1dw : Tables :=
  { files := [],
    dirs := [ { id := 1, path := "/a", parent_id := none,
                hash := some "A", duplicate_id := none },
              { id := 2, path := "/b", parent_id := none,
                hash := some "B", duplicate_id := none } ],
    duplicates := [],
    nextDupId := 1 }

def c1fw : Tables :=
  { files := [ { id := 1, path := "/x", size := 10, dir_id := 1,
                 hash := none, hash_complete := none,
                 duplicate_id := none } ],
    dirs := [],
    duplicates := [],
    nextDupId := 1 }

def c1fw2 : Tables :=
  { files := [ { id := 1, path := "/x", size := 10, dir_id := 1,
                 hash := some "P", hash_complete := some "P",
                 duplicate_id := none } ],
    dirs := [],
    duplicates := [],
    nextDupId := 1 }

/-- Witness for C1: re-hashing dir 2 to dir 1's hash builds a 2-member
"dir" group, and hashing a fresh small file leaves the law intact. -/
theorem claim1_ref_count_law_witness :
    refCountLawB (updateDirHash c1dw 2 "A") = true ∧
    refCountLawB c1fw2 = true :=
  ⟨claim1_ref_count_law.1 c1dw 2 "A" (by decide) (by decide),
   claim1_ref_count_law.2 c1fw 1 "P" none c1fw2 (by decide) (by decide)
     (by decide) (by decide)⟩

end Dedupler
